import Mathlib

/-!
Async-context bookkeeping of the execution host (src/env-inl.h)

A shallow embedding of `AsyncHooks` and of the `Environment` operations built
on it, followed by theorems about them.

Conventions of the embedding.

* The two `uint32_t` fields used here (`fields_[kCheck]`, `fields_[kStackLength]`)
  are natural numbers; every arithmetic step on them is reduced modulo `2^32`
  exactly where the source computes in `uint32_t`.
* The `double` fields (`async_id_fields_[...]`, the slots of `async_ids_stack_`)
  hold ids; ids are taken as exact integers, so NaN, infinities and the loss of
  precision above `2^53` are outside the model.
* `async_ids_stack_` is the list of its slots; `Length()` is the length of that
  list.  An access at an index that is not below `Length()` is undefined in the
  source and is reported as the separate outcome `Run.outOfBounds`.
* A call that ends the process (`CHECK_GE`, `exit(1)`, `ABORT_NO_BACKTRACE`) is
  the outcome `Run.fatal`, carrying the state at the moment of termination.
-/

namespace NodeEnv

/-- Modulus of `uint32_t` arithmetic. -/
def UINT32_MOD : Nat := 4294967296

/-- The ways a call can end the process instead of returning. -/
inductive Fatal where
  /-- A failed `CHECK_GE`. -/
  | check
  /-- The call `exit(1)` of `pop_async_id`. -/
  | exit1
  /-- The call `ABORT_NO_BACKTRACE()` of `pop_async_id`. -/
  | abort
  deriving DecidableEq

/-- The state of an `AsyncHooks` object: the slots of `async_ids_stack_`, the
entries `kCheck` and `kStackLength` of `fields_`, and the four entries of
`async_id_fields_`. -/
structure AsyncHooks where
  async_ids_stack_ : List Int
  kCheck : Nat
  kStackLength : Nat
  kExecutionAsyncId : Int
  kTriggerAsyncId : Int
  kAsyncIdCounter : Int
  kDefaultTriggerAsyncId : Int
  deriving DecidableEq

/-- Outcome of a call on an `AsyncHooks`: it returns `value` leaving state `s`,
or it ends the process in state `s`, or it indexes `async_ids_stack_` outside
its length. -/
inductive Run (α : Type) where
  | done (value : α) (s : AsyncHooks)
  | fatal (why : Fatal) (s : AsyncHooks)
  | outOfBounds
  deriving DecidableEq

/-- Sequencing of calls: the second call runs only if the first returned. -/
def Run.andThen {α β : Type} (r : Run α) (f : α → AsyncHooks → Run β) : Run β :=
  match r with
  | .done v s => f v s
  | .fatal w s => .fatal w s
  | .outOfBounds => .outOfBounds

/-- The constructor `AsyncHooks::AsyncHooks()`: a stack buffer of `16 * 2`
slots, `kCheck = 1`, `kDefaultTriggerAsyncId = -1`, `kAsyncIdCounter = 1`; the
remaining entries are those of a freshly allocated (zero-filled) buffer. -/
def AsyncHooks.new : AsyncHooks :=
  { async_ids_stack_ := List.replicate (16 * 2) 0
    kCheck := 1
    kStackLength := 0
    kExecutionAsyncId := 0
    kTriggerAsyncId := 0
    kAsyncIdCounter := 1
    kDefaultTriggerAsyncId := -1 }

/-- The method `AsyncHooks::no_force_checks`: `fields_[kCheck] -= 1` in
`uint32_t`, which wraps from `0` to `2^32 - 1`. -/
def no_force_checks (s : AsyncHooks) : AsyncHooks :=
  { s with kCheck := if s.kCheck = 0 then UINT32_MOD - 1 else (s.kCheck - 1) % UINT32_MOD }

/-- Modelled from the spec: `AsyncHooks::grow_async_ids_stack` is called by
`push_async_ids` but defined outside the available sources.  The spec says the
backing storage grows "by doubling if full": the buffer gets twice its length,
the old slots keep their contents, the new slots are zero-filled. -/
def grow_async_ids_stack (s : AsyncHooks) : AsyncHooks :=
  { s with async_ids_stack_ :=
      s.async_ids_stack_ ++ List.replicate s.async_ids_stack_.length 0 }

/-- The method `AsyncHooks::push_async_ids(async_id, trigger_async_id)`. -/
def push_async_ids (s : AsyncHooks) (async_id trigger_async_id : Int) : Run Unit :=
  if 0 < s.kCheck ∧ ¬ (-1 ≤ async_id) then .fatal .check s
  else if 0 < s.kCheck ∧ ¬ (-1 ≤ trigger_async_id) then .fatal .check s
  else
    let offset := s.kStackLength
    let s1 :=
      if s.async_ids_stack_.length ≤ offset * 2 % UINT32_MOD then grow_async_ids_stack s
      else s
    let i0 := 2 * offset % UINT32_MOD
    let i1 := (2 * offset + 1) % UINT32_MOD
    if i0 < s1.async_ids_stack_.length ∧ i1 < s1.async_ids_stack_.length then
      .done ()
        { s1 with
          async_ids_stack_ :=
            ((s1.async_ids_stack_.set i0 s1.kExecutionAsyncId).set i1 s1.kTriggerAsyncId)
          kStackLength := (s1.kStackLength + 1) % UINT32_MOD
          kExecutionAsyncId := async_id
          kTriggerAsyncId := trigger_async_id }
    else .outOfBounds

/-- The method `AsyncHooks::pop_async_id(async_id)`.  The flag is the value of
`env()->abort_on_uncaught_exception()`, which selects between `exit(1)` and
`ABORT_NO_BACKTRACE()` on the corruption path.  The subtraction
`fields_[kStackLength] - 1` is reached only with a non-zero stack length, so it
does not wrap. -/
def pop_async_id (s : AsyncHooks) (abort_on_uncaught_exception : Bool)
    (async_id : Int) : Run Bool :=
  if s.kStackLength = 0 then .done false s
  else if 0 < s.kCheck ∧ s.kExecutionAsyncId ≠ async_id then
    if !abort_on_uncaught_exception then .fatal .exit1 s
    else .fatal .abort s
  else
    let offset := (s.kStackLength - 1) % UINT32_MOD
    match s.async_ids_stack_[2 * offset % UINT32_MOD]?,
          s.async_ids_stack_[(2 * offset + 1) % UINT32_MOD]? with
    | some e, some t =>
      .done (decide (0 < offset))
        { s with kExecutionAsyncId := e, kTriggerAsyncId := t, kStackLength := offset }
    | _, _ => .outOfBounds

/-- The method `AsyncHooks::clear_async_id_stack`. -/
def clear_async_id_stack (s : AsyncHooks) : AsyncHooks :=
  { s with kExecutionAsyncId := 0, kTriggerAsyncId := 0, kStackLength := 0 }

/-- The object `AsyncHooks::DefaultTriggerAsyncIdScope`: its only data member
besides the back pointer is the remembered default trigger id. -/
structure DefaultTriggerAsyncIdScope where
  old_default_trigger_async_id_ : Int
  deriving DecidableEq

/-- The constructor `DefaultTriggerAsyncIdScope(env, default_trigger_async_id)`. -/
def DefaultTriggerAsyncIdScope.ctor (s : AsyncHooks) (default_trigger_async_id : Int) :
    Run DefaultTriggerAsyncIdScope :=
  if 0 < s.kCheck ∧ ¬ (0 ≤ default_trigger_async_id) then .fatal .check s
  else
    .done { old_default_trigger_async_id_ := s.kDefaultTriggerAsyncId }
      { s with kDefaultTriggerAsyncId := default_trigger_async_id }

/-- The destructor `~DefaultTriggerAsyncIdScope()`. -/
def DefaultTriggerAsyncIdScope.dtor (scope : DefaultTriggerAsyncIdScope) (s : AsyncHooks) :
    AsyncHooks :=
  { s with kDefaultTriggerAsyncId := scope.old_default_trigger_async_id_ }

/-- The method `Environment::new_async_id`: the counter is raised by one and the
new counter value is returned. -/
def new_async_id (s : AsyncHooks) : Int × AsyncHooks :=
  let s1 := { s with kAsyncIdCounter := s.kAsyncIdCounter + 1 }
  (s1.kAsyncIdCounter, s1)

/-- The representation invariant of the stack part of an `AsyncHooks`: both
`uint32_t` fields are in range, the buffer holds a positive whole number of
pairs, and the pairs counted by `kStackLength` fit in the buffer. -/
def AsyncHooks.Valid (s : AsyncHooks) : Prop :=
  s.kCheck < UINT32_MOD ∧ s.kStackLength < UINT32_MOD ∧
  0 < s.async_ids_stack_.length ∧ s.async_ids_stack_.length % 2 = 0 ∧
  2 * s.kStackLength ≤ s.async_ids_stack_.length

instance (s : AsyncHooks) : Decidable s.Valid := by
  unfold AsyncHooks.Valid; infer_instance

/-- The calls `push_async_ids(a1, t1)`, ..., `push_async_ids(an, tn)` in a row. -/
def push_all : AsyncHooks → List (Int × Int) → Run Unit
  | s, [] => .done () s
  | s, p :: ps => (push_async_ids s p.1 p.2).andThen fun _ s1 => push_all s1 ps

/-- The calls `pop_async_id(x1)`, ..., `pop_async_id(xn)` in a row; the boolean
results are dropped. -/
def pop_all (abort_on_uncaught_exception : Bool) : AsyncHooks → List Int → Run Unit
  | s, [] => .done () s
  | s, x :: xs =>
    (pop_async_id s abort_on_uncaught_exception x).andThen fun _ s1 =>
      pop_all abort_on_uncaught_exception s1 xs

/-- The pushes of `ps` in order followed by the pops of their ids in reverse
order. -/
def push_then_pop (abort_on_uncaught_exception : Bool) (s : AsyncHooks)
    (ps : List (Int × Int)) : Run Unit :=
  (push_all s ps).andThen fun _ s1 =>
    pop_all abort_on_uncaught_exception s1 (ps.reverse.map Prod.fst)

/-- One call on the async-context part of a host. -/
inductive Op where
  | push (async_id trigger_async_id : Int)
  | pop (abort_on_uncaught_exception : Bool) (async_id : Int)
  | clear
  | new_id
  | scope_enter (default_trigger_async_id : Int)
  | scope_exit
  deriving DecidableEq

/-- The calls that construct or destroy a `DefaultTriggerAsyncIdScope`. -/
def Op.isScopeOp : Op → Bool
  | .scope_enter _ => true
  | .scope_exit => true
  | _ => false

/-- A host while it runs a sequence of calls: its `AsyncHooks`, the
`DefaultTriggerAsyncIdScope` objects alive (innermost first, as C++ scoping
destroys them), and the values `new_async_id` has returned so far, oldest
first. -/
structure Host where
  hooks : AsyncHooks
  scopes : List DefaultTriggerAsyncIdScope
  returned : List Int
  deriving DecidableEq

/-- One call on a host.  The result is `none` when the call does not return
(fatal path or out-of-bounds access) and when `scope_exit` has no live scope to
destroy. -/
def Host.step (h : Host) : Op → Option Host
  | .push a t =>
    match push_async_ids h.hooks a t with
    | .done _ s => some { h with hooks := s }
    | _ => none
  | .pop b x =>
    match pop_async_id h.hooks b x with
    | .done _ s => some { h with hooks := s }
    | _ => none
  | .clear => some { h with hooks := clear_async_id_stack h.hooks }
  | .new_id =>
    some { h with hooks := (new_async_id h.hooks).2
                  returned := h.returned ++ [(new_async_id h.hooks).1] }
  | .scope_enter v =>
    match DefaultTriggerAsyncIdScope.ctor h.hooks v with
    | .done sc s => some { h with hooks := s, scopes := sc :: h.scopes }
    | _ => none
  | .scope_exit =>
    match h.scopes with
    | sc :: rest => some { h with hooks := sc.dtor h.hooks, scopes := rest }
    | [] => none

/-- A sequence of calls, each of which returns. -/
def Host.run : Host → List Op → Option Host
  | h, [] => some h
  | h, op :: ops => (h.step op).bind fun h1 => h1.run ops

/-- The `AsyncHooks` left once every live scope has been destroyed, innermost
first. -/
def Host.unwind (h : Host) : AsyncHooks :=
  h.scopes.foldl (fun s sc => sc.dtor s) h.hooks

/-- A freshly constructed host: a fresh `AsyncHooks`, no live scope, no id
handed out. -/
def Host.new : Host :=
  { hooks := AsyncHooks.new, scopes := [], returned := [] }

/-- The state a fresh instance is in after `push_async_ids(5, 0)` and
`push_async_ids(7, 5)`; used as a concrete two-deep stack. -/
def AsyncHooks.two_deep : AsyncHooks :=
  { AsyncHooks.new with
    async_ids_stack_ := [0, 0, 5, 0] ++ List.replicate 28 0
    kStackLength := 2
    kExecutionAsyncId := 7
    kTriggerAsyncId := 5 }

/-- The id invariant of the data model: both registers and every slot of the
stack buffer hold a value that is at least `-1`. -/
def AsyncHooks.IdsValid (s : AsyncHooks) : Prop :=
  -1 ≤ s.kExecutionAsyncId ∧ -1 ≤ s.kTriggerAsyncId ∧ ∀ v ∈ s.async_ids_stack_, -1 ≤ v

/-! Liveness counters, deferred immediates, cleanup hooks, thread-pool work,
handle closing and allocated buffers (src/env-inl.h, src/node_internals.h).
Pointers (`void*`, function pointers, `char*`) are natural numbers, `nullptr`
being `0`. -/

/-- Outcome of a call that either returns leaving state `s` or ends the process
on a failed `CHECK` in state `s`. -/
inductive Checked (σ : Type) where
  | done (s : σ)
  | fatal (s : σ)
  deriving DecidableEq

/-- Modulus of `uint64_t` arithmetic. -/
def UINT64_MOD : Nat := 18446744073709551616

/-- The `uint32_t` entries `kCount`, `kRefCount` and `kHasOutstanding` of
`ImmediateInfo::fields_`. -/
structure ImmediateInfo where
  kCount : Nat
  kRefCount : Nat
  kHasOutstanding : Nat
  deriving DecidableEq

/-- The method `ImmediateInfo::count`. -/
def ImmediateInfo.count (i : ImmediateInfo) : Nat := i.kCount

/-- The method `ImmediateInfo::ref_count`. -/
def ImmediateInfo.ref_count (i : ImmediateInfo) : Nat := i.kRefCount

/-- The method `ImmediateInfo::has_outstanding`. -/
def ImmediateInfo.has_outstanding (i : ImmediateInfo) : Bool := i.kHasOutstanding == 1

/-- The method `ImmediateInfo::count_inc`: `fields_[kCount] += increment` in
`uint32_t`. -/
def ImmediateInfo.count_inc (i : ImmediateInfo) (increment : Nat) : ImmediateInfo :=
  { i with kCount := (i.kCount + increment) % UINT32_MOD }

/-- The method `ImmediateInfo::count_dec`: `fields_[kCount] -= decrement` in
`uint32_t`, that is, subtraction modulo `2^32`, written as the addition of the
complement of `decrement`. -/
def ImmediateInfo.count_dec (i : ImmediateInfo) (decrement : Nat) : ImmediateInfo :=
  { i with kCount := (UINT32_MOD - decrement % UINT32_MOD + i.kCount) % UINT32_MOD }

/-- The method `ImmediateInfo::ref_count_inc`: `fields_[kRefCount] += increment`
in `uint32_t`. -/
def ImmediateInfo.ref_count_inc (i : ImmediateInfo) (increment : Nat) : ImmediateInfo :=
  { i with kRefCount := (i.kRefCount + increment) % UINT32_MOD }

/-- The method `ImmediateInfo::ref_count_dec`: `fields_[kRefCount] -= decrement`
in `uint32_t`. -/
def ImmediateInfo.ref_count_dec (i : ImmediateInfo) (decrement : Nat) : ImmediateInfo :=
  { i with kRefCount := (UINT32_MOD - decrement % UINT32_MOD + i.kRefCount) % UINT32_MOD }

/-- One call of the four counter mutators of `ImmediateInfo`. -/
inductive CounterOp where
  | count_inc (increment : Nat)
  | count_dec (decrement : Nat)
  | ref_count_inc (increment : Nat)
  | ref_count_dec (decrement : Nat)
  deriving DecidableEq

/-- The effect of one counter call. -/
def ImmediateInfo.apply (i : ImmediateInfo) : CounterOp → ImmediateInfo
  | .count_inc n => i.count_inc n
  | .count_dec n => i.count_dec n
  | .ref_count_inc n => i.ref_count_inc n
  | .ref_count_dec n => i.ref_count_dec n

/-- A sequence of counter calls, in the order given. -/
def ImmediateInfo.run : ImmediateInfo → List CounterOp → ImmediateInfo
  | i, [] => i
  | i, op :: ops => (i.apply op).run ops

/-- The net total a sequence of calls asks for on `kCount`: the sum of its
`count_inc` arguments minus the sum of its `count_dec` arguments, as an exact
integer. -/
def CounterOp.net_count : List CounterOp → Int
  | [] => 0
  | .count_inc n :: ops => (n : Int) + CounterOp.net_count ops
  | .count_dec n :: ops => - (n : Int) + CounterOp.net_count ops
  | _ :: ops => CounterOp.net_count ops

/-- The net total a sequence of calls asks for on `kRefCount`. -/
def CounterOp.net_ref_count : List CounterOp → Int
  | [] => 0
  | .ref_count_inc n :: ops => (n : Int) + CounterOp.net_ref_count ops
  | .ref_count_dec n :: ops => - (n : Int) + CounterOp.net_ref_count ops
  | _ :: ops => CounterOp.net_ref_count ops

/-- One element of `native_immediate_callbacks_`: the callback, its data, the
object kept alive and the `ref` flag. -/
structure NativeImmediateCallback where
  cb_ : Nat
  data_ : Nat
  keep_alive_ : Nat
  refed_ : Bool
  deriving DecidableEq

/-- The part of `Environment` that `SetImmediate` works on: the queue
`native_immediate_callbacks_`, the `ImmediateInfo`, and the liveness (idle)
handle, given by its active flag and by the list of `ToggleImmediateRef` calls
made so far. -/
structure ImmediateEnv where
  native_immediate_callbacks_ : List NativeImmediateCallback
  immediate_info_ : ImmediateInfo
  liveness_handle_active : Bool
  ToggleImmediateRef_calls : List Bool
  deriving DecidableEq

/-- Modelled from the spec: `Environment::ToggleImmediateRef` is called by
`SetImmediate` but defined outside the available sources.  The spec says the
owning host marks its liveness handle "active" (argument `true`) or "inactive"
(argument `false`); the call is also recorded. -/
def ToggleImmediateRef (env : ImmediateEnv) (ref : Bool) : ImmediateEnv :=
  { env with
    liveness_handle_active := ref
    ToggleImmediateRef_calls := env.ToggleImmediateRef_calls ++ [ref] }

/-- The method `Environment::CreateImmediate(cb, data, obj, ref)`. -/
def CreateImmediate (env : ImmediateEnv) (cb data obj : Nat) (ref : Bool) : ImmediateEnv :=
  { env with
    native_immediate_callbacks_ :=
      env.native_immediate_callbacks_ ++
        [{ cb_ := cb, data_ := data, keep_alive_ := obj, refed_ := ref }]
    immediate_info_ := env.immediate_info_.count_inc 1 }

/-- The method `Environment::SetImmediate(cb, data, obj)`. -/
def SetImmediate (env : ImmediateEnv) (cb data obj : Nat) : ImmediateEnv :=
  let env1 := CreateImmediate env cb data obj true
  let env2 := if env1.immediate_info_.ref_count = 0 then ToggleImmediateRef env1 true else env1
  { env2 with immediate_info_ := env2.immediate_info_.ref_count_inc 1 }

/-- The method `Environment::SetUnrefImmediate(cb, data, obj)`. -/
def SetUnrefImmediate (env : ImmediateEnv) (cb data obj : Nat) : ImmediateEnv :=
  CreateImmediate env cb data obj false

/-- The class `Environment::CleanupHookCallback`: the finalizer `fn_`, its
argument `arg_`, and the insertion sequence number given at registration. -/
structure CleanupHookCallback where
  fn_ : Nat
  arg_ : Nat
  insertion_sequence : Nat
  deriving DecidableEq

/-- The functor `CleanupHookCallback::Equal`: equality of `fn_` and of `arg_`;
the sequence number is not compared. -/
def CleanupHookCallback.Equal (a b : CleanupHookCallback) : Bool :=
  a.fn_ == b.fn_ && a.arg_ == b.arg_

/-- The cleanup-hook part of `Environment`: the set `cleanup_hooks_` and the
`uint64_t` counter `cleanup_hook_counter_`.  The set is kept as the list of its
elements in the order they were added; the iteration order of the
`std::unordered_set` itself is unspecified, and the list order is read only as
registration order or as one possible iteration order. -/
structure CleanupEnv where
  cleanup_hooks_ : List CleanupHookCallback
  cleanup_hook_counter_ : Nat
  deriving DecidableEq

/-- The method `Environment::AddCleanupHook(fn, arg)`: `emplace` of
`{fn, arg, cleanup_hook_counter_++}` followed by the `CHECK` that the element
was inserted.  The counter is raised before the check. -/
def AddCleanupHook (env : CleanupEnv) (fn arg : Nat) : Checked CleanupEnv :=
  let cb : CleanupHookCallback :=
    { fn_ := fn, arg_ := arg, insertion_sequence := env.cleanup_hook_counter_ }
  let counter := (env.cleanup_hook_counter_ + 1) % UINT64_MOD
  if env.cleanup_hooks_.any (fun h => h.Equal cb) then
    .fatal { env with cleanup_hook_counter_ := counter }
  else
    .done { cleanup_hooks_ := env.cleanup_hooks_ ++ [cb], cleanup_hook_counter_ := counter }

/-- The method `Environment::RemoveCleanupHook(fn, arg)`: `erase` of the element
equal, under `Equal`, to the search key `{fn, arg, 0}`. -/
def RemoveCleanupHook (env : CleanupEnv) (fn arg : Nat) : CleanupEnv :=
  let search : CleanupHookCallback := { fn_ := fn, arg_ := arg, insertion_sequence := 0 }
  { env with cleanup_hooks_ := env.cleanup_hooks_.filter (fun h => !h.Equal search) }

/-- The representation invariant of `cleanup_hooks_` as a set: no two elements
are equal under `Equal`. -/
def CleanupEnv.Unique (env : CleanupEnv) : Prop :=
  env.cleanup_hooks_.Pairwise (fun a b => a.Equal b = false)

/-- The ordering invariant of the registry: along registration order the
sequence numbers strictly increase, and all of them are below the counter. -/
def CleanupEnv.Ordered (env : CleanupEnv) : Prop :=
  env.cleanup_hooks_.Pairwise (fun a b => a.insertion_sequence < b.insertion_sequence) ∧
  ∀ h ∈ env.cleanup_hooks_, h.insertion_sequence < env.cleanup_hook_counter_

/-- One registry call. -/
inductive HookOp where
  | add (fn arg : Nat)
  | remove (fn arg : Nat)
  deriving DecidableEq

/-- A sequence of registry calls none of which fails; `none` when an
`AddCleanupHook` in it fails. -/
def CleanupEnv.run : CleanupEnv → List HookOp → Option CleanupEnv
  | env, [] => some env
  | env, .add fn arg :: ops =>
    match AddCleanupHook env fn arg with
    | .done env1 => env1.run ops
    | .fatal _ => none
  | env, .remove fn arg :: ops => (RemoveCleanupHook env fn arg).run ops

/-- Modelled from the spec: the teardown traversal (`Environment::RunCleanup`) is
defined outside the available sources.  The spec says teardown iterates "all
hooks in descending insertion-sequence order (most-recently-registered first)";
this is the list of hooks in that order. -/
def CleanupEnv.teardown_order (env : CleanupEnv) : List CleanupHookCallback :=
  env.cleanup_hooks_.insertionSort (fun a b => b.insertion_sequence ≤ a.insertion_sequence)

/-- The method `CleanupHookCallback::GetBaseObject`; `DeleteMe` is the address of
`BaseObject::DeleteMe`, declared outside the available sources. -/
def CleanupHookCallback.GetBaseObject (DeleteMe : Nat) (cb : CleanupHookCallback) : Nat :=
  if cb.fn_ = DeleteMe then cb.arg_ else 0

/-- The method `Environment::ForEachBaseObject(iterator)`: the loop over
`cleanup_hooks_`, threading the visitor's own state `σ`; the result is the
environment after the loop and the visitor's final state. -/
def ForEachBaseObject {σ : Type} (DeleteMe : Nat) (env : CleanupEnv)
    (iterator : Nat → σ → σ) (init : σ) : CleanupEnv × σ :=
  (env, env.cleanup_hooks_.foldl
    (fun acc hook =>
      let obj := hook.GetBaseObject DeleteMe
      if obj ≠ 0 then iterator obj acc else acc)
    init)

/-- The objects a traversal hands to its visitor, in the order of the calls. -/
def visited_objects (DeleteMe : Nat) (env : CleanupEnv) : List Nat :=
  (ForEachBaseObject DeleteMe env (fun obj acc => acc ++ [obj]) []).2

/-- The two `int` counters `request_waiting_` and `handle_cleanup_waiting_` of
`Environment`.  Their declarations are outside the available sources; they are
taken as exact integers (signed overflow is undefined in the source). -/
structure LoopCounters where
  request_waiting_ : Int
  handle_cleanup_waiting_ : Int
  deriving DecidableEq

/-- The method `Environment::IncreaseWaitingRequestCounter`. -/
def IncreaseWaitingRequestCounter (env : LoopCounters) : LoopCounters :=
  { env with request_waiting_ := env.request_waiting_ + 1 }

/-- The method `Environment::DecreaseWaitingRequestCounter`: the decrement, then
`CHECK_GE(request_waiting_, 0)`. -/
def DecreaseWaitingRequestCounter (env : LoopCounters) : Checked LoopCounters :=
  let env1 := { env with request_waiting_ := env.request_waiting_ - 1 }
  if 0 ≤ env1.request_waiting_ then .done env1 else .fatal env1

/-- The method `ThreadPoolWork::ScheduleWork`, on the control thread: the counter
is raised, the work is handed to `uv_queue_work` (libuv, external), whose result
is `status`, and `CHECK_EQ(status, 0)` follows. -/
def ThreadPoolWork.ScheduleWork (env : LoopCounters) (status : Int) : Checked LoopCounters :=
  let env1 := IncreaseWaitingRequestCounter env
  if status = 0 then .done env1 else .fatal env1

/-- The completion lambda that `ScheduleWork` hands to `uv_queue_work`, run on
the control thread with the completion `status`: the counter is lowered, then
the virtual `AfterThreadPoolWork(status)` of the work item runs. -/
def ThreadPoolWork.after_work_cb
    (AfterThreadPoolWork : Int → LoopCounters → Checked LoopCounters)
    (env : LoopCounters) (status : Int) : Checked LoopCounters :=
  match DecreaseWaitingRequestCounter env with
  | .done env1 => AfterThreadPoolWork status env1
  | .fatal env1 => .fatal env1

/-- The `data` slot of a libuv handle: a pointer of the handle's user, or the
`CloseData` that `CloseHandle` allocates, which holds the callback and the
slot's original contents (its `env` member is the one environment of the
model). -/
inductive HandleData where
  | raw (p : Nat)
  | close_data (callback : Nat) (original_data : HandleData)
  deriving DecidableEq

/-- A libuv handle: its identity and its `data` slot. -/
structure UvHandle where
  id : Nat
  data : HandleData
  deriving DecidableEq

/-- The method `Environment::CloseHandle(handle, callback)` up to the call of
`uv_close`: the counter is raised and the data slot is overwritten. -/
def CloseHandle (env : LoopCounters) (handle : UvHandle) (callback : Nat) :
    LoopCounters × UvHandle :=
  ({ env with handle_cleanup_waiting_ := env.handle_cleanup_waiting_ + 1 },
   { handle with data := .close_data callback handle.data })

/-- The lambda that `CloseHandle` hands to `uv_close`, run when the close
completes: the counter is lowered, the data slot is restored, then the stored
callback is called on the handle; `invoke callback handle env` is the run of
that callback.  The result is `none` when the data slot does not hold a
`CloseData`. -/
def CloseHandle_close_cb (invoke : Nat → UvHandle → LoopCounters → LoopCounters × UvHandle)
    (env : LoopCounters) (handle : UvHandle) : Option (LoopCounters × UvHandle) :=
  match handle.data with
  | .close_data callback original_data =>
    let env1 := { env with handle_cleanup_waiting_ := env.handle_cleanup_waiting_ - 1 }
    let handle1 := { handle with data := original_data }
    some (invoke callback handle1 env1)
  | .raw _ => none

/-- The libuv type `uv_buf_t`: a base pointer and a length. -/
structure uv_buf_t where
  base : Nat
  len : Nat
  deriving DecidableEq

/-- The libuv function `uv_buf_init(char* base, unsigned int len)`: the `size_t`
a caller passes for `len` is converted to `unsigned int`, that is, reduced
modulo `2^32`, before it is stored. -/
def uv_buf_init (base len : Nat) : uv_buf_t := { base := base, len := len % UINT32_MOD }

/-- The class `AllocatedBuffer`: the owning environment and the region. -/
structure AllocatedBuffer where
  env_ : Nat
  buffer_ : uv_buf_t
  deriving DecidableEq

/-- The record of deallocations: every call of `Environment::Free`, and those
among them that reached `allocator()->Free`, each as `(env, data, size)`. -/
structure FreeLog where
  Free_calls : List (Nat × Nat × Nat)
  allocator_Free_calls : List (Nat × Nat × Nat)
  deriving DecidableEq

/-- The method `Environment::Free(data, size)` of environment `env`. -/
def Environment.Free (env : Nat) (log : FreeLog) (data size : Nat) : FreeLog :=
  { Free_calls := log.Free_calls ++ [(env, data, size)]
    allocator_Free_calls :=
      if data ≠ 0 then log.allocator_Free_calls ++ [(env, data, size)]
      else log.allocator_Free_calls }

/-- The constructor `AllocatedBuffer(env)`: an empty buffer. -/
def AllocatedBuffer.empty (env : Nat) : AllocatedBuffer :=
  { env_ := env, buffer_ := uv_buf_init 0 0 }

/-- The method `AllocatedBuffer::data`. -/
def AllocatedBuffer.data (b : AllocatedBuffer) : Nat := b.buffer_.base

/-- The method `AllocatedBuffer::size`. -/
def AllocatedBuffer.size (b : AllocatedBuffer) : Nat := b.buffer_.len

/-- The method `AllocatedBuffer::release`: the region held, and the buffer left
empty. -/
def AllocatedBuffer.release (b : AllocatedBuffer) : uv_buf_t × AllocatedBuffer :=
  (b.buffer_, { b with buffer_ := uv_buf_init 0 0 })

/-- The method `AllocatedBuffer::clear`. -/
def AllocatedBuffer.clear (b : AllocatedBuffer) (log : FreeLog) : AllocatedBuffer × FreeLog :=
  let r := b.release
  (r.2, Environment.Free b.env_ log r.1.base r.1.len)

/-- The destructor `~AllocatedBuffer()`. -/
def AllocatedBuffer.dtor (b : AllocatedBuffer) (log : FreeLog) : FreeLog :=
  (b.clear log).2

/-- The move assignment `self = std::move(other)` of two distinct objects: the
new `self`, the new `other`, and the log. -/
def AllocatedBuffer.move_assign (self other : AllocatedBuffer) (log : FreeLog) :
    AllocatedBuffer × AllocatedBuffer × FreeLog :=
  let c := self.clear log
  let self1 := { c.1 with env_ := other.env_ }
  let r := other.release
  ({ self1 with buffer_ := r.1 }, r.2, c.2)

/-- The method `AllocatedBuffer::Resize(len)`.  `Reallocate` stands for
`Environment::Reallocate(data, old_size, size)`, defined outside the available
sources: it returns the new base pointer, null on failure.  The result is `none`
when `CHECK_NOT_NULL(new_data)` fails. -/
def AllocatedBuffer.Resize (Reallocate : Nat → Nat → Nat → Nat) (b : AllocatedBuffer)
    (len : Nat) : Option AllocatedBuffer :=
  let new_data := Reallocate b.buffer_.base b.buffer_.len (if 0 < len then len else 1)
  if new_data ≠ 0 then some { b with buffer_ := uv_buf_init new_data len } else none

/-- The method `Environment::AllocateUnchecked(size)`; `AllocateUninitialized`
stands for the allocator's method of that name, which returns the base pointer,
null on failure. -/
def Environment.AllocateUnchecked (AllocateUninitialized : Nat → Nat) (size : Nat) : Nat :=
  AllocateUninitialized size

/-- The method `Environment::Allocate(size)`; `none` when `CHECK_NE(ret, nullptr)`
fails. -/
def Environment.Allocate (AllocateUninitialized : Nat → Nat) (size : Nat) : Option Nat :=
  let ret := Environment.AllocateUnchecked AllocateUninitialized size
  if ret ≠ 0 then some ret else none

/-- The method `Environment::AllocateManaged(size, checked)` of environment
`env`; `none` when the checked allocation fails. -/
def Environment.AllocateManaged (env : Nat) (AllocateUninitialized : Nat → Nat)
    (size : Nat) (checked : Bool) : Option AllocatedBuffer :=
  let data? :=
    if checked then Environment.Allocate AllocateUninitialized size
    else some (Environment.AllocateUnchecked AllocateUninitialized size)
  match data? with
  | some data =>
    let size1 := if data = 0 then 0 else size
    some { env_ := env, buffer_ := uv_buf_init data size1 }
  | none => none

/-- The live `AllocatedBuffer` objects, by address.  Operations that reach a
buffer through `this` or through a reference act on the store, so that two
references to the same object alias. -/
abbrev BufferStore := Nat → AllocatedBuffer

/-- The store with the object at address `a` replaced. -/
def BufferStore.set (st : BufferStore) (a : Nat) (b : AllocatedBuffer) : BufferStore :=
  fun x => if x = a then b else st x

/-- The method `AllocatedBuffer::release` on the object at address `a`. -/
def BufferStore.release (st : BufferStore) (a : Nat) : uv_buf_t × BufferStore :=
  ((st a).buffer_, st.set a { st a with buffer_ := uv_buf_init 0 0 })

/-- The method `AllocatedBuffer::clear` on the object at address `a`. -/
def BufferStore.clear (st : BufferStore) (log : FreeLog) (a : Nat) : BufferStore × FreeLog :=
  let r := st.release a
  (r.2, Environment.Free (r.2 a).env_ log r.1.base r.1.len)

/-- The move assignment `*self = std::move(*other)` on the objects at addresses
`self` and `other`, which may be the same address: `clear()`, then
`env_ = other.env_`, then `buffer_ = other.release()`. -/
def BufferStore.move_assign (st : BufferStore) (log : FreeLog) (self other : Nat) :
    BufferStore × FreeLog :=
  let c := st.clear log self
  let st1 := c.1.set self { c.1 self with env_ := (c.1 other).env_ }
  let r := st1.release other
  (r.2.set self { r.2 self with buffer_ := r.1 }, c.2)

/-- The destructor `~AllocatedBuffer()` on the object at address `a`. -/
def BufferStore.dtor (st : BufferStore) (log : FreeLog) (a : Nat) : FreeLog :=
  (st.clear log a).2

/-- One call on the waiting-request counter. -/
inductive WaitingOp where
  | increase
  | decrease
  deriving DecidableEq

/-- A sequence of `IncreaseWaitingRequestCounter` / `DecreaseWaitingRequestCounter`
calls; `none` when one of the decreases fails its `CHECK`. -/
def LoopCounters.run : LoopCounters → List WaitingOp → Option LoopCounters
  | e, [] => some e
  | e, .increase :: ops => (IncreaseWaitingRequestCounter e).run ops
  | e, .decrease :: ops =>
    match DecreaseWaitingRequestCounter e with
    | .done e1 => e1.run ops
    | .fatal _ => none

/-- The method `Environment::get_default_trigger_async_id`: the value returned
and the state left. -/
def get_default_trigger_async_id (s : AsyncHooks) : Int × AsyncHooks :=
  let default_trigger_async_id := s.kDefaultTriggerAsyncId
  if default_trigger_async_id < 0 then (s.kExecutionAsyncId, s)
  else (default_trigger_async_id, s)

/-- The slots of `async_ids_stack_` that `push_async_ids` writes when called in
state `s`: the `uint32_t` indices `2 * offset` and `2 * offset + 1`. -/
def slots_written_by_push (s : AsyncHooks) : List Nat :=
  [2 * s.kStackLength % UINT32_MOD, (2 * s.kStackLength + 1) % UINT32_MOD]

/-- The slots of `async_ids_stack_` that `pop_async_id` reads when called in
state `s` with a non-empty stack. -/
def slots_read_by_pop (s : AsyncHooks) : List Nat :=
  [2 * ((s.kStackLength - 1) % UINT32_MOD) % UINT32_MOD,
   (2 * ((s.kStackLength - 1) % UINT32_MOD) + 1) % UINT32_MOD]

/-- A sequence of calls as in `Host.run`, which also collects, in `written`, the
slots written by the pushes that returned. -/
def Host.run_written : Host → List Nat → List Op → Option (Host × List Nat)
  | h, written, [] => some (h, written)
  | h, written, op :: ops =>
    match h.step op with
    | some h1 =>
      match op with
      | .push _ _ => h1.run_written (written ++ slots_written_by_push h.hooks) ops
      | _ => h1.run_written written ops
    | none => none

/-- The states a sequence of calls passes through, the starting state first and
the state after the last returning call last. -/
def Host.trace : Host → List Op → List Host
  | h, [] => [h]
  | h, op :: ops =>
    h :: (match h.step op with
      | some h1 => h1.trace ops
      | none => [])

theorem Run.andThen_assoc {α β γ : Type} (r : Run α) (f : α → AsyncHooks → Run β)
    (g : β → AsyncHooks → Run γ) :
    (r.andThen f).andThen g = r.andThen fun v s => (f v s).andThen g := by
  cases r <;> rfl

theorem pop_all_append (b : Bool) (xs ys : List Int) (s : AsyncHooks) :
    pop_all b s (xs ++ ys) = (pop_all b s xs).andThen fun _ s1 => pop_all b s1 ys := by
  induction xs generalizing s with
  | nil => rfl
  | cons x xs ih =>
    simp only [List.cons_append, pop_all, Run.andThen_assoc]
    congr 1
    funext _ s1
    exact ih s1

theorem push_async_ids_done (s : AsyncHooks) (a t : Int) (hv : s.Valid)
    (hd : s.kStackLength < 2147483648)
    (hok : 0 < s.kCheck → -1 ≤ a ∧ -1 ≤ t) :
    ∃ s1, push_async_ids s a t = .done () s1 ∧
      s1.kStackLength = s.kStackLength + 1 ∧
      s1.kExecutionAsyncId = a ∧ s1.kTriggerAsyncId = t ∧
      s1.kCheck = s.kCheck ∧ s1.kAsyncIdCounter = s.kAsyncIdCounter ∧
      s1.kDefaultTriggerAsyncId = s.kDefaultTriggerAsyncId ∧
      s1.async_ids_stack_[2 * s.kStackLength]? = some s.kExecutionAsyncId ∧
      s1.async_ids_stack_[2 * s.kStackLength + 1]? = some s.kTriggerAsyncId ∧
      (∀ i, i < 2 * s.kStackLength → s1.async_ids_stack_[i]? = s.async_ids_stack_[i]?) ∧
      s1.Valid := by
  obtain ⟨hc, hl, hpos, hev, hfit⟩ := hv
  have h1 : ¬ (0 < s.kCheck ∧ ¬ (-1 ≤ a)) := fun h => h.2 (hok h.1).1
  have h2 : ¬ (0 < s.kCheck ∧ ¬ (-1 ≤ t)) := fun h => h.2 (hok h.1).2
  have e0 : s.kStackLength * 2 % UINT32_MOD = 2 * s.kStackLength := by
    unfold UINT32_MOD; omega
  have e0b : 2 * s.kStackLength % UINT32_MOD = 2 * s.kStackLength := by
    unfold UINT32_MOD; omega
  have e1 : (2 * s.kStackLength + 1) % UINT32_MOD = 2 * s.kStackLength + 1 := by
    unfold UINT32_MOD; omega
  have e2 : (s.kStackLength + 1) % UINT32_MOD = s.kStackLength + 1 := by
    unfold UINT32_MOD; omega
  unfold push_async_ids
  rw [if_neg h1, if_neg h2]
  simp only [e0, e0b, e1]
  by_cases hg : s.async_ids_stack_.length ≤ 2 * s.kStackLength
  · have hlen : s.async_ids_stack_.length = 2 * s.kStackLength := by omega
    have hb : 2 * s.kStackLength < (grow_async_ids_stack s).async_ids_stack_.length ∧
        2 * s.kStackLength + 1 < (grow_async_ids_stack s).async_ids_stack_.length := by
      simp [grow_async_ids_stack]; omega
    rw [if_pos hg, if_pos hb]
    refine ⟨_, rfl, ?_, rfl, rfl, rfl, rfl, rfl, ?_, ?_, ?_, ?_⟩
    · simpa [grow_async_ids_stack] using e2
    · simp [grow_async_ids_stack, List.getElem?_set]
      omega
    · simp [grow_async_ids_stack, List.getElem?_set]
      omega
    · intro i hi
      show ((((s.async_ids_stack_ ++ List.replicate s.async_ids_stack_.length 0).set
        (2 * s.kStackLength) s.kExecutionAsyncId).set (2 * s.kStackLength + 1)
        s.kTriggerAsyncId))[i]? = s.async_ids_stack_[i]?
      rw [List.getElem?_set_ne (by omega), List.getElem?_set_ne (by omega),
        List.getElem?_append_left (by omega)]
    · refine ⟨hc, ?_, ?_, ?_, ?_⟩
      · simp [grow_async_ids_stack, e2]; unfold UINT32_MOD; omega
      · simp [grow_async_ids_stack]; omega
      · simp [grow_async_ids_stack]; omega
      · simp [grow_async_ids_stack, e2]; omega
  · have hb : 2 * s.kStackLength < s.async_ids_stack_.length ∧
        2 * s.kStackLength + 1 < s.async_ids_stack_.length := by omega
    rw [if_neg hg, if_pos hb]
    refine ⟨_, rfl, e2, rfl, rfl, rfl, rfl, rfl, ?_, ?_, ?_, ?_⟩
    · simp [List.getElem?_set]
      omega
    · simp [List.getElem?_set]
      omega
    · intro i hi
      show ((s.async_ids_stack_.set (2 * s.kStackLength) s.kExecutionAsyncId).set
        (2 * s.kStackLength + 1) s.kTriggerAsyncId)[i]? = s.async_ids_stack_[i]?
      rw [List.getElem?_set_ne (by omega), List.getElem?_set_ne (by omega)]
    · refine ⟨hc, ?_, ?_, ?_, ?_⟩
      · simp [e2]; unfold UINT32_MOD; omega
      · simp; omega
      · simp; omega
      · simp [e2]; omega

theorem pop_async_id_done (s : AsyncHooks) (b : Bool) (x e t : Int)
    (hpos : 0 < s.kStackLength) (hd : s.kStackLength ≤ 2147483648)
    (hm : s.kCheck = 0 ∨ s.kExecutionAsyncId = x)
    (he : s.async_ids_stack_[2 * (s.kStackLength - 1)]? = some e)
    (ht : s.async_ids_stack_[2 * (s.kStackLength - 1) + 1]? = some t) :
    pop_async_id s b x = .done (decide (0 < s.kStackLength - 1))
      { s with kExecutionAsyncId := e, kTriggerAsyncId := t,
               kStackLength := s.kStackLength - 1 } := by
  have h0 : ¬ s.kStackLength = 0 := by omega
  have h1 : ¬ (0 < s.kCheck ∧ s.kExecutionAsyncId ≠ x) := by
    rintro ⟨hc, hne⟩
    rcases hm with h | h
    · omega
    · exact hne h
  have eo : (s.kStackLength - 1) % UINT32_MOD = s.kStackLength - 1 := by
    unfold UINT32_MOD; omega
  have e0 : 2 * (s.kStackLength - 1) % UINT32_MOD = 2 * (s.kStackLength - 1) := by
    unfold UINT32_MOD; omega
  have e1 : (2 * (s.kStackLength - 1) + 1) % UINT32_MOD = 2 * (s.kStackLength - 1) + 1 := by
    unfold UINT32_MOD; omega
  unfold pop_async_id
  rw [if_neg h0, if_neg h1]
  simp only [eo, e0, e1, he, ht]

theorem push_then_pop_cons (b : Bool) (s : AsyncHooks) (p : Int × Int)
    (ps : List (Int × Int)) :
    push_then_pop b s (p :: ps) =
      (push_async_ids s p.1 p.2).andThen fun _ s1 =>
        (push_then_pop b s1 ps).andThen fun _ s2 =>
          (pop_async_id s2 b p.1).andThen fun _ s3 => .done () s3 := by
  simp only [push_then_pop, push_all, List.reverse_cons, List.map_append, List.map_cons,
    List.map_nil, pop_all_append, Run.andThen_assoc, pop_all]

theorem push_then_pop_restores (b : Bool) (ps : List (Int × Int)) :
    ∀ s : AsyncHooks, s.Valid → s.kStackLength + ps.length ≤ 2147483648 →
      (∀ p ∈ ps, -1 ≤ p.1 ∧ -1 ≤ p.2) →
      ∃ s', push_then_pop b s ps = .done () s' ∧
        s'.kExecutionAsyncId = s.kExecutionAsyncId ∧
        s'.kTriggerAsyncId = s.kTriggerAsyncId ∧
        s'.kStackLength = s.kStackLength ∧
        s'.kCheck = s.kCheck ∧ s'.Valid ∧
        (∀ i, i < 2 * s.kStackLength → s'.async_ids_stack_[i]? = s.async_ids_stack_[i]?) := by
  induction ps with
  | nil =>
    intro s hv _ _
    exact ⟨s, rfl, rfl, rfl, rfl, rfl, hv, fun _ _ => rfl⟩
  | cons p ps ih =>
    intro s hv hd hids
    have hlen : (p :: ps).length = ps.length + 1 := rfl
    obtain ⟨s1, hpush, hl1, he1, ht1, hc1, -, -, hs0, hs1, hlow1, hv1⟩ :=
      push_async_ids_done s p.1 p.2 hv (by omega) (fun _ => hids p (List.mem_cons_self _ _))
    obtain ⟨s2, hrt, he2, ht2, hl2, hc2, hv2, hlow2⟩ :=
      ih s1 hv1 (by omega) (fun q hq => hids q (List.mem_cons_of_mem _ hq))
    have hpop := pop_async_id_done s2 b p.1 s.kExecutionAsyncId s.kTriggerAsyncId
      (by omega) (by omega) (Or.inr (by rw [he2, he1]))
      (by rw [hl2, hl1, hlow2 _ (by omega)]; simpa using hs0)
      (by rw [hl2, hl1, hlow2 _ (by omega)]; simpa using hs1)
    rw [push_then_pop_cons, hpush]
    simp only [Run.andThen, hrt, hpop]
    refine ⟨_, rfl, rfl, rfl, ?_, ?_, ?_, ?_⟩
    · simp [hl2, hl1]
    · simp [hc2, hc1]
    · obtain ⟨a1, a2, a3, a4, a5⟩ := hv2
      refine ⟨a1, ?_, a3, a4, ?_⟩
      · show s2.kStackLength - 1 < UINT32_MOD
        omega
      · show 2 * (s2.kStackLength - 1) ≤ s2.async_ids_stack_.length
        omega
    · intro i hi
      show s2.async_ids_stack_[i]? = s.async_ids_stack_[i]?
      rw [hlow2 i (by omega), hlow1 i hi]

theorem push_async_ids_eq_done (s s' : AsyncHooks) (a t : Int)
    (h : push_async_ids s a t = .done () s') :
    (0 < s.kCheck → -1 ≤ a ∧ -1 ≤ t) ∧
    ∃ s1, (s1 = s ∨ (s1 = grow_async_ids_stack s ∧
        s.async_ids_stack_.length ≤ s.kStackLength * 2 % UINT32_MOD)) ∧
      2 * s.kStackLength % UINT32_MOD < s1.async_ids_stack_.length ∧
      (2 * s.kStackLength + 1) % UINT32_MOD < s1.async_ids_stack_.length ∧
      s' = { s with
        async_ids_stack_ :=
          (s1.async_ids_stack_.set (2 * s.kStackLength % UINT32_MOD) s.kExecutionAsyncId).set
            ((2 * s.kStackLength + 1) % UINT32_MOD) s.kTriggerAsyncId
        kStackLength := (s.kStackLength + 1) % UINT32_MOD
        kExecutionAsyncId := a
        kTriggerAsyncId := t } := by
  unfold push_async_ids at h
  by_cases h1 : 0 < s.kCheck ∧ ¬ (-1 ≤ a)
  · rw [if_pos h1] at h; cases h
  rw [if_neg h1] at h
  by_cases h2 : 0 < s.kCheck ∧ ¬ (-1 ≤ t)
  · rw [if_pos h2] at h; cases h
  rw [if_neg h2] at h
  simp only [not_and, not_not] at h1 h2
  refine ⟨fun hc => ⟨h1 hc, h2 hc⟩, ?_⟩
  by_cases hg : s.async_ids_stack_.length ≤ s.kStackLength * 2 % UINT32_MOD
  · simp only [if_pos hg] at h
    split_ifs at h with hb
    refine ⟨grow_async_ids_stack s, Or.inr ⟨rfl, hg⟩, hb.1, hb.2, ?_⟩
    simp only [Run.done.injEq, true_and] at h
    rw [← h]; rfl
  · simp only [if_neg hg] at h
    split_ifs at h with hb
    refine ⟨s, Or.inl rfl, hb.1, hb.2, ?_⟩
    simp only [Run.done.injEq, true_and] at h
    rw [← h]

theorem pop_async_id_eq_done (s s' : AsyncHooks) (b v : Bool) (x : Int)
    (h : pop_async_id s b x = .done v s') :
    (s.kStackLength = 0 ∧ v = false ∧ s' = s) ∨
    (s.kStackLength ≠ 0 ∧ (0 < s.kCheck → s.kExecutionAsyncId = x) ∧
      ∃ e t,
        s.async_ids_stack_[2 * ((s.kStackLength - 1) % UINT32_MOD)
          % UINT32_MOD]? = some e ∧
        s.async_ids_stack_[(2 * ((s.kStackLength - 1) % UINT32_MOD) + 1)
          % UINT32_MOD]? = some t ∧
        v = decide (0 < (s.kStackLength - 1) % UINT32_MOD) ∧
        s' = { s with
          kExecutionAsyncId := e
          kTriggerAsyncId := t
          kStackLength := (s.kStackLength - 1) % UINT32_MOD }) := by
  unfold pop_async_id at h
  by_cases h0 : s.kStackLength = 0
  · rw [if_pos h0] at h
    simp only [Run.done.injEq] at h
    exact Or.inl ⟨h0, h.1.symm, h.2.symm⟩
  rw [if_neg h0] at h
  by_cases h1 : 0 < s.kCheck ∧ s.kExecutionAsyncId ≠ x
  · rw [if_pos h1] at h
    split_ifs at h
  rw [if_neg h1] at h
  simp only [ne_eq, not_and, not_not] at h1
  refine Or.inr ⟨h0, h1, ?_⟩
  dsimp only at h
  split at h
  · rename_i e t he ht
    simp only [Run.done.injEq] at h
    exact ⟨e, t, he, ht, h.1.symm, h.2.symm⟩
  · cases h

theorem Host.step_push_eq (h h' : Host) (a t : Int) (hs : h.step (.push a t) = some h') :
    ∃ s1, push_async_ids h.hooks a t = .done () s1 ∧ h' = { h with hooks := s1 } := by
  cases hp : push_async_ids h.hooks a t with
  | done u s1 =>
    simp only [Host.step, hp, Option.some.injEq] at hs
    exact ⟨s1, rfl, hs.symm⟩
  | fatal w s1 => simp only [Host.step, hp] at hs; cases hs
  | outOfBounds => simp only [Host.step, hp] at hs; cases hs

theorem Host.step_pop_eq (h h' : Host) (b : Bool) (x : Int)
    (hs : h.step (.pop b x) = some h') :
    ∃ v s1, pop_async_id h.hooks b x = .done v s1 ∧ h' = { h with hooks := s1 } := by
  cases hp : pop_async_id h.hooks b x with
  | done u s1 =>
    simp only [Host.step, hp, Option.some.injEq] at hs
    exact ⟨u, s1, rfl, hs.symm⟩
  | fatal w s1 => simp only [Host.step, hp] at hs; cases hs
  | outOfBounds => simp only [Host.step, hp] at hs; cases hs

theorem Host.step_scope_enter_eq (h h' : Host) (v : Int)
    (hs : h.step (.scope_enter v) = some h') :
    (0 < h.hooks.kCheck → 0 ≤ v) ∧
    h' = { h with
      hooks := { h.hooks with kDefaultTriggerAsyncId := v }
      scopes := { old_default_trigger_async_id_ := h.hooks.kDefaultTriggerAsyncId } :: h.scopes } := by
  by_cases hc : 0 < h.hooks.kCheck ∧ ¬ (0 ≤ v)
  · simp only [Host.step, DefaultTriggerAsyncIdScope.ctor, if_pos hc] at hs; cases hs
  · simp only [Host.step, DefaultTriggerAsyncIdScope.ctor, if_neg hc, Option.some.injEq] at hs
    simp only [not_and, not_not] at hc
    exact ⟨hc, hs.symm⟩

theorem Host.step_scope_exit_eq (h h' : Host) (hs : h.step .scope_exit = some h') :
    ∃ sc rest, h.scopes = sc :: rest ∧ h' = { h with hooks := sc.dtor h.hooks, scopes := rest } := by
  cases hsc : h.scopes with
  | nil => simp only [Host.step, hsc] at hs; cases hs
  | cons sc rest =>
    simp only [Host.step, hsc, Option.some.injEq] at hs
    exact ⟨sc, rest, rfl, hs.symm⟩

theorem Host.step_frame (h h' : Host) (op : Op) (hs : h.step op = some h') :
    h'.hooks.kCheck = h.hooks.kCheck ∧
    (op ≠ .new_id → h'.hooks.kAsyncIdCounter = h.hooks.kAsyncIdCounter ∧
      h'.returned = h.returned) ∧
    (op = .new_id → h'.hooks.kAsyncIdCounter = h.hooks.kAsyncIdCounter + 1 ∧
      h'.returned = h.returned ++ [h.hooks.kAsyncIdCounter + 1]) ∧
    (op.isScopeOp = false → h'.hooks.kDefaultTriggerAsyncId = h.hooks.kDefaultTriggerAsyncId ∧
      h'.scopes = h.scopes) := by
  cases op with
  | push a t =>
    obtain ⟨s1, hp, rfl⟩ := Host.step_push_eq h h' a t hs
    obtain ⟨-, s0, -, -, -, rfl⟩ := push_async_ids_eq_done _ _ _ _ hp
    exact ⟨rfl, fun _ => ⟨rfl, rfl⟩, fun e => Op.noConfusion e, fun _ => ⟨rfl, rfl⟩⟩
  | pop b x =>
    obtain ⟨v, s1, hp, rfl⟩ := Host.step_pop_eq h h' b x hs
    rcases pop_async_id_eq_done _ _ _ _ _ hp with ⟨-, -, rfl⟩ | ⟨-, -, e, t, -, -, -, rfl⟩
    · exact ⟨rfl, fun _ => ⟨rfl, rfl⟩, fun e => Op.noConfusion e, fun _ => ⟨rfl, rfl⟩⟩
    · exact ⟨rfl, fun _ => ⟨rfl, rfl⟩, fun e => Op.noConfusion e, fun _ => ⟨rfl, rfl⟩⟩
  | clear =>
    simp only [Host.step, Option.some.injEq] at hs
    subst hs
    exact ⟨rfl, fun _ => ⟨rfl, rfl⟩, fun e => Op.noConfusion e, fun _ => ⟨rfl, rfl⟩⟩
  | new_id =>
    simp only [Host.step, Option.some.injEq] at hs
    subst hs
    exact ⟨rfl, fun e => absurd rfl e, fun _ => ⟨rfl, rfl⟩, fun _ => ⟨rfl, rfl⟩⟩
  | scope_enter v =>
    obtain ⟨-, rfl⟩ := Host.step_scope_enter_eq h h' v hs
    exact ⟨rfl, fun _ => ⟨rfl, rfl⟩, fun e => Op.noConfusion e, fun e => Bool.noConfusion e⟩
  | scope_exit =>
    obtain ⟨sc, rest, -, rfl⟩ := Host.step_scope_exit_eq h h' hs
    exact ⟨rfl, fun _ => ⟨rfl, rfl⟩, fun e => Op.noConfusion e, fun e => Bool.noConfusion e⟩

theorem Host.step_idsValid (h h' : Host) (op : Op) (hs : h.step op = some h')
    (hc : 0 < h.hooks.kCheck) (hi : h.hooks.IdsValid) : h'.hooks.IdsValid := by
  obtain ⟨hie, hit, his⟩ := hi
  cases op with
  | push a t =>
    obtain ⟨s1, hp, rfl⟩ := Host.step_push_eq h h' a t hs
    obtain ⟨hat, s0, hs0, -, -, rfl⟩ := push_async_ids_eq_done _ _ _ _ hp
    refine ⟨(hat hc).1, (hat hc).2, ?_⟩
    intro v hv
    have hs0mem : ∀ w ∈ s0.async_ids_stack_, -1 ≤ w := by
      rcases hs0 with rfl | ⟨rfl, -⟩
      · exact his
      · intro w hw
        simp only [grow_async_ids_stack, List.mem_append, List.mem_replicate] at hw
        rcases hw with hw | ⟨-, rfl⟩
        · exact his w hw
        · decide
    rcases List.mem_or_eq_of_mem_set hv with hv | rfl
    · rcases List.mem_or_eq_of_mem_set hv with hv | rfl
      · exact hs0mem v hv
      · exact hie
    · exact hit
  | pop b x =>
    obtain ⟨v, s1, hp, rfl⟩ := Host.step_pop_eq h h' b x hs
    rcases pop_async_id_eq_done _ _ _ _ _ hp with ⟨-, -, rfl⟩ | ⟨-, -, e, t, he, ht, -, rfl⟩
    · exact ⟨hie, hit, his⟩
    · exact ⟨his e (List.getElem?_mem he), his t (List.getElem?_mem ht), his⟩
  | clear =>
    simp only [Host.step, Option.some.injEq] at hs
    subst hs
    exact ⟨show (-1 : Int) ≤ 0 by decide, show (-1 : Int) ≤ 0 by decide, his⟩
  | new_id =>
    simp only [Host.step, Option.some.injEq] at hs
    subst hs
    exact ⟨hie, hit, his⟩
  | scope_enter v =>
    obtain ⟨-, rfl⟩ := Host.step_scope_enter_eq h h' v hs
    exact ⟨hie, hit, his⟩
  | scope_exit =>
    obtain ⟨sc, rest, -, rfl⟩ := Host.step_scope_exit_eq h h' hs
    exact ⟨hie, hit, his⟩

theorem Host.run_idsValid (ops : List Op) :
    ∀ h h' : Host, h.run ops = some h' → 0 < h.hooks.kCheck → h.hooks.IdsValid →
      h'.hooks.IdsValid := by
  induction ops with
  | nil =>
    intro h h' hr _ hi
    simp only [Host.run, Option.some.injEq] at hr
    subst hr
    exact hi
  | cons op ops ih =>
    intro h h' hr hc hi
    simp only [Host.run] at hr
    cases hst : h.step op with
    | none => rw [hst] at hr; cases hr
    | some h1 =>
      rw [hst] at hr
      exact ih h1 h' hr (by rw [(Host.step_frame h h1 op hst).1]; exact hc)
        (Host.step_idsValid h h1 op hst hc hi)

theorem Host.run_counter (ops : List Op) :
    ∀ h h' : Host, h.run ops = some h' →
      h.hooks.kAsyncIdCounter ≤ h'.hooks.kAsyncIdCounter ∧
      (∀ x ∈ h'.returned, x ∈ h.returned ∨
        (h.hooks.kAsyncIdCounter < x ∧ x ≤ h'.hooks.kAsyncIdCounter)) ∧
      (h.returned.Pairwise (· < ·) → (∀ x ∈ h.returned, x ≤ h.hooks.kAsyncIdCounter) →
        h'.returned.Pairwise (· < ·)) := by
  induction ops with
  | nil =>
    intro h h' hr
    simp only [Host.run, Option.some.injEq] at hr
    subst hr
    exact ⟨le_refl _, fun x hx => Or.inl hx, fun hp _ => hp⟩
  | cons op ops ih =>
    intro h h' hr
    simp only [Host.run] at hr
    cases hst : h.step op with
    | none => rw [hst] at hr; cases hr
    | some h1 =>
      rw [hst] at hr
      obtain ⟨hle, hmem, hpw⟩ := ih h1 h' hr
      obtain ⟨-, hother, hnew, -⟩ := Host.step_frame h h1 op hst
      by_cases hop : op = .new_id
      · obtain ⟨hc1, hr1⟩ := hnew hop
        refine ⟨by omega, ?_, ?_⟩
        · intro x hx
          rcases hmem x hx with hx1 | ⟨hlt, hle2⟩
          · rw [hr1, List.mem_append, List.mem_singleton] at hx1
            rcases hx1 with hx1 | rfl
            · exact Or.inl hx1
            · exact Or.inr ⟨by omega, by omega⟩
          · exact Or.inr ⟨by omega, hle2⟩
        · intro hp hb
          apply hpw
          · rw [hr1, List.pairwise_append]
            refine ⟨hp, List.pairwise_singleton _ _, ?_⟩
            intro a ha b hb2
            rw [List.mem_singleton] at hb2
            have := hb a ha
            omega
          · intro x hx
            rw [hr1, List.mem_append, List.mem_singleton] at hx
            rcases hx with hx | rfl
            · have := hb x hx
              omega
            · omega
      · obtain ⟨hc1, hr1⟩ := hother hop
        refine ⟨by omega, ?_, ?_⟩
        · intro x hx
          rcases hmem x hx with hx1 | ⟨hlt, hle2⟩
          · exact Or.inl (hr1 ▸ hx1)
          · exact Or.inr ⟨by omega, hle2⟩
        · intro hp hb
          apply hpw
          · rw [hr1]; exact hp
          · intro x hx
            rw [hr1] at hx
            have := hb x hx
            omega

theorem dtor_foldl_default (scopes : List DefaultTriggerAsyncIdScope) :
    ∀ s s' : AsyncHooks, s.kDefaultTriggerAsyncId = s'.kDefaultTriggerAsyncId →
      (scopes.foldl (fun s sc => sc.dtor s) s).kDefaultTriggerAsyncId =
        (scopes.foldl (fun s sc => sc.dtor s) s').kDefaultTriggerAsyncId := by
  induction scopes with
  | nil => intro s s' h; exact h
  | cons sc rest ih => intro s s' _; exact ih _ _ rfl

theorem Host.step_unwind (h h' : Host) (op : Op) (hs : h.step op = some h') :
    h'.unwind.kDefaultTriggerAsyncId = h.unwind.kDefaultTriggerAsyncId := by
  by_cases hop : op.isScopeOp = false
  · obtain ⟨hd, hsc⟩ := (Host.step_frame h h' op hs).2.2.2 hop
    unfold Host.unwind
    rw [hsc]
    exact dtor_foldl_default _ _ _ hd
  · cases op with
    | scope_enter v =>
      obtain ⟨-, rfl⟩ := Host.step_scope_enter_eq h h' v hs
      unfold Host.unwind
      simp only [List.foldl_cons]
      exact dtor_foldl_default h.scopes _ _ rfl
    | scope_exit =>
      obtain ⟨sc, rest, hsc, rfl⟩ := Host.step_scope_exit_eq h h' hs
      unfold Host.unwind
      rw [hsc]
      rfl
    | push a t => exact absurd rfl hop
    | pop b x => exact absurd rfl hop
    | clear => exact absurd rfl hop
    | new_id => exact absurd rfl hop

theorem Host.run_unwind (ops : List Op) :
    ∀ h h' : Host, h.run ops = some h' →
      h'.unwind.kDefaultTriggerAsyncId = h.unwind.kDefaultTriggerAsyncId := by
  induction ops with
  | nil =>
    intro h h' hr
    simp only [Host.run, Option.some.injEq] at hr
    subst hr
    rfl
  | cons op ops ih =>
    intro h h' hr
    simp only [Host.run] at hr
    cases hst : h.step op with
    | none => rw [hst] at hr; cases hr
    | some h1 =>
      rw [hst] at hr
      exact (ih h1 h' hr).trans (Host.step_unwind h h1 op hst)

theorem Host.run_no_scope_op (ops : List Op) :
    ∀ h h' : Host, (∀ op ∈ ops, op.isScopeOp = false) → h.run ops = some h' →
      h'.hooks.kDefaultTriggerAsyncId = h.hooks.kDefaultTriggerAsyncId ∧
        h'.scopes = h.scopes := by
  induction ops with
  | nil =>
    intro h h' _ hr
    simp only [Host.run, Option.some.injEq] at hr
    subst hr
    exact ⟨rfl, rfl⟩
  | cons op ops ih =>
    intro h h' hops hr
    simp only [Host.run] at hr
    cases hst : h.step op with
    | none => rw [hst] at hr; cases hr
    | some h1 =>
      rw [hst] at hr
      obtain ⟨hd1, hs1⟩ := (Host.step_frame h h1 op hst).2.2.2 (hops op (List.mem_cons_self _ _))
      obtain ⟨hd2, hs2⟩ := ih h1 h' (fun o ho => hops o (List.mem_cons_of_mem _ ho)) hr
      exact ⟨hd2.trans hd1, hs2.trans hs1⟩

/-- C1 (LIFO round trip).  From a state that satisfies the representation
invariant, pushing the pairs `(a1,t1) ... (an,tn)`, all ids at least `-1`, and
then popping `an ... a1` returns from every call (no fatal path, no access
outside the buffer) and leaves `kExecutionAsyncId`, `kTriggerAsyncId` and
`kStackLength` at their values from before the first push.  The bound keeps the
32-bit stack index `2 * kStackLength` from wrapping. -/
theorem lifo_round_trip (s : AsyncHooks) (abort_on_uncaught_exception : Bool)
    (ps : List (Int × Int)) (hv : s.Valid)
    (hd : s.kStackLength + ps.length ≤ 2147483648)
    (hids : ∀ p ∈ ps, -1 ≤ p.1 ∧ -1 ≤ p.2) :
    ∃ s', push_then_pop abort_on_uncaught_exception s ps = .done () s' ∧
      s'.kExecutionAsyncId = s.kExecutionAsyncId ∧
      s'.kTriggerAsyncId = s.kTriggerAsyncId ∧
      s'.kStackLength = s.kStackLength := by
  obtain ⟨s', h1, h2, h3, h4, -⟩ :=
    push_then_pop_restores abort_on_uncaught_exception ps s hv hd hids
  exact ⟨s', h1, h2, h3, h4⟩

theorem lifo_round_trip_witness :
    AsyncHooks.new.Valid ∧
    AsyncHooks.new.kStackLength + [((5 : Int), (0 : Int)), (7, 5), (9, -1)].length
      ≤ 2147483648 ∧
    (∀ p ∈ [((5 : Int), (0 : Int)), (7, 5), (9, -1)], -1 ≤ p.1 ∧ -1 ≤ p.2) ∧
    ∃ s', push_then_pop true AsyncHooks.new [(5, 0), (7, 5), (9, -1)] = .done () s' ∧
      s'.kExecutionAsyncId = AsyncHooks.new.kExecutionAsyncId ∧
      s'.kTriggerAsyncId = AsyncHooks.new.kTriggerAsyncId ∧
      s'.kStackLength = AsyncHooks.new.kStackLength :=
  ⟨by decide, by decide, by decide,
    lifo_round_trip AsyncHooks.new true [(5, 0), (7, 5), (9, -1)]
      (by decide) (by decide) (by decide)⟩

/-- C2 (corruption detection).  With a non-empty stack and checking enabled,
`pop_async_id(x)` with `x` different from the current `kExecutionAsyncId` ends
the process (`ABORT_NO_BACKTRACE` or `exit(1)`, by the abort flag), never
returns, and the state at termination is the state at the call.  In
particular `push(5,0)`, `push(7,5)`, `pop(999)` on a fresh instance ends on the
fatal path with registers `(7,5)` and stack length `2`. -/
theorem pop_wrong_id_is_fatal (s : AsyncHooks) (abort_on_uncaught_exception : Bool) (x : Int)
    (hne : s.kStackLength ≠ 0) (hc : 0 < s.kCheck) (hx : s.kExecutionAsyncId ≠ x) :
    pop_async_id s abort_on_uncaught_exception x =
        .fatal (if abort_on_uncaught_exception then .abort else .exit1) s ∧
      (∀ v s', pop_async_id s abort_on_uncaught_exception x ≠ .done v s') ∧
      ∃ s2, ((push_async_ids AsyncHooks.new 5 0).andThen fun _ s1 =>
          push_async_ids s1 7 5) = .done () s2 ∧
        s2.kExecutionAsyncId = 7 ∧ s2.kTriggerAsyncId = 5 ∧ s2.kStackLength = 2 ∧
        pop_async_id s2 abort_on_uncaught_exception 999 =
          .fatal (if abort_on_uncaught_exception then .abort else .exit1) s2 := by
  have h : pop_async_id s abort_on_uncaught_exception x =
      .fatal (if abort_on_uncaught_exception then .abort else .exit1) s := by
    unfold pop_async_id
    rw [if_neg hne, if_pos ⟨hc, hx⟩]
    cases abort_on_uncaught_exception <;> rfl
  refine ⟨h, ?_, ?_⟩
  · intro v s' hd
    rw [h] at hd
    cases hd
  · refine ⟨_, rfl, rfl, rfl, rfl, ?_⟩
    cases abort_on_uncaught_exception <;> decide

theorem pop_wrong_id_is_fatal_witness :
    (push_async_ids AsyncHooks.new 5 0).andThen (fun _ s1 => push_async_ids s1 7 5) =
      .done () AsyncHooks.two_deep ∧
    AsyncHooks.two_deep.kStackLength ≠ 0 ∧ 0 < AsyncHooks.two_deep.kCheck ∧
    AsyncHooks.two_deep.kExecutionAsyncId ≠ 999 ∧
    pop_async_id AsyncHooks.two_deep false 999 = .fatal .exit1 AsyncHooks.two_deep :=
  ⟨by decide, by decide, by decide, by decide,
    (pop_wrong_id_is_fatal AsyncHooks.two_deep false 999
      (by decide) (by decide) (by decide)).1⟩

/-- C3 (pop on an empty stack).  With stack length `0`, `pop_async_id` returns
`false` for every argument and every value of `kCheck`, and the state it leaves
is the state it was called in. -/
theorem pop_on_empty_stack (s : AsyncHooks) (abort_on_uncaught_exception : Bool) (x : Int)
    (h0 : s.kStackLength = 0) :
    pop_async_id s abort_on_uncaught_exception x = .done false s := by
  unfold pop_async_id
  rw [if_pos h0]

theorem pop_on_empty_stack_witness :
    AsyncHooks.new.kStackLength = 0 ∧
    pop_async_id AsyncHooks.new true 999 = .done false AsyncHooks.new ∧
    pop_async_id (no_force_checks AsyncHooks.new) false 0 =
      .done false (no_force_checks AsyncHooks.new) :=
  ⟨rfl, pop_on_empty_stack AsyncHooks.new true 999 rfl,
    pop_on_empty_stack (no_force_checks AsyncHooks.new) false 0 rfl⟩

/-- C4 (effect of a successful pop).  With stack length `d > 0` (the pairs
fitting in the buffer, `d` at most `2^31`) and either a matching id or checking
disabled, `pop_async_id` sets the registers to the pair held in slot `d - 1`,
sets the stack length to `d - 1`, and returns `true` exactly when `d - 1 > 0`. -/
theorem pop_restores_saved_pair (s : AsyncHooks) (abort_on_uncaught_exception : Bool)
    (x : Int) (hpos : 0 < s.kStackLength) (hd : s.kStackLength ≤ 2147483648)
    (hfit : 2 * s.kStackLength ≤ s.async_ids_stack_.length)
    (hm : s.kExecutionAsyncId = x ∨ s.kCheck = 0) :
    ∃ e t, s.async_ids_stack_[2 * (s.kStackLength - 1)]? = some e ∧
      s.async_ids_stack_[2 * (s.kStackLength - 1) + 1]? = some t ∧
      pop_async_id s abort_on_uncaught_exception x =
        .done (decide (0 < s.kStackLength - 1))
          { s with kExecutionAsyncId := e, kTriggerAsyncId := t,
                   kStackLength := s.kStackLength - 1 } := by
  have h0 : 2 * (s.kStackLength - 1) < s.async_ids_stack_.length := by omega
  have h1 : 2 * (s.kStackLength - 1) + 1 < s.async_ids_stack_.length := by omega
  refine ⟨s.async_ids_stack_[2 * (s.kStackLength - 1)],
    s.async_ids_stack_[2 * (s.kStackLength - 1) + 1],
    List.getElem?_eq_getElem h0, List.getElem?_eq_getElem h1, ?_⟩
  exact pop_async_id_done s abort_on_uncaught_exception x _ _ hpos hd hm.symm
    (List.getElem?_eq_getElem h0) (List.getElem?_eq_getElem h1)

theorem pop_restores_saved_pair_witness :
    0 < AsyncHooks.two_deep.kStackLength ∧
    2 * AsyncHooks.two_deep.kStackLength ≤ AsyncHooks.two_deep.async_ids_stack_.length ∧
    ∃ e t, AsyncHooks.two_deep.async_ids_stack_[2 * (AsyncHooks.two_deep.kStackLength - 1)]?
        = some e ∧
      AsyncHooks.two_deep.async_ids_stack_[2 * (AsyncHooks.two_deep.kStackLength - 1) + 1]?
        = some t ∧
      pop_async_id AsyncHooks.two_deep true 7 =
        .done (decide (0 < AsyncHooks.two_deep.kStackLength - 1))
          { AsyncHooks.two_deep with
            kExecutionAsyncId := e, kTriggerAsyncId := t,
            kStackLength := AsyncHooks.two_deep.kStackLength - 1 } :=
  ⟨by decide, by decide,
    pop_restores_saved_pair AsyncHooks.two_deep true 7
      (by decide) (by decide) (by decide) (Or.inl rfl)⟩

/-- C5 (effect of a push).  In a state with stack length `d` below `2^31`, a
`push_async_ids(a, t)` that returns has stored the previous
`(kExecutionAsyncId, kTriggerAsyncId)` in slot `d` (buffer indices `2d` and
`2d + 1`), set the stack length to `d + 1` and the registers to `(a, t)`, and
left every slot below `d`, the id counter, the default trigger id and `kCheck`
as they were. -/
theorem push_saves_registers (s s' : AsyncHooks) (a t : Int)
    (hd : s.kStackLength < 2147483648)
    (hp : push_async_ids s a t = .done () s') :
    s'.async_ids_stack_[2 * s.kStackLength]? = some s.kExecutionAsyncId ∧
    s'.async_ids_stack_[2 * s.kStackLength + 1]? = some s.kTriggerAsyncId ∧
    s'.kStackLength = s.kStackLength + 1 ∧
    s'.kExecutionAsyncId = a ∧ s'.kTriggerAsyncId = t ∧
    (∀ i v, i < 2 * s.kStackLength → s.async_ids_stack_[i]? = some v →
      s'.async_ids_stack_[i]? = some v) ∧
    s'.kAsyncIdCounter = s.kAsyncIdCounter ∧
    s'.kDefaultTriggerAsyncId = s.kDefaultTriggerAsyncId ∧
    s'.kCheck = s.kCheck := by
  obtain ⟨-, s1, hs1, hb0, hb1, rfl⟩ := push_async_ids_eq_done s s' a t hp
  have e0 : 2 * s.kStackLength % UINT32_MOD = 2 * s.kStackLength := by
    unfold UINT32_MOD; omega
  have e1 : (2 * s.kStackLength + 1) % UINT32_MOD = 2 * s.kStackLength + 1 := by
    unfold UINT32_MOD; omega
  have e2 : (s.kStackLength + 1) % UINT32_MOD = s.kStackLength + 1 := by
    unfold UINT32_MOD; omega
  rw [e0] at hb0
  rw [e1] at hb1
  refine ⟨?_, ?_, e2, rfl, rfl, ?_, rfl, rfl, rfl⟩
  · show ((s1.async_ids_stack_.set (2 * s.kStackLength % UINT32_MOD) s.kExecutionAsyncId).set
      ((2 * s.kStackLength + 1) % UINT32_MOD) s.kTriggerAsyncId)[2 * s.kStackLength]? = _
    rw [e0, e1]
    simp [List.getElem?_set, hb0]
  · show ((s1.async_ids_stack_.set (2 * s.kStackLength % UINT32_MOD) s.kExecutionAsyncId).set
      ((2 * s.kStackLength + 1) % UINT32_MOD) s.kTriggerAsyncId)[2 * s.kStackLength + 1]? = _
    rw [e0, e1]
    simp [List.getElem?_set, hb1]
  · intro i v hi hv
    show ((s1.async_ids_stack_.set (2 * s.kStackLength % UINT32_MOD) s.kExecutionAsyncId).set
      ((2 * s.kStackLength + 1) % UINT32_MOD) s.kTriggerAsyncId)[i]? = _
    rw [e0, e1, List.getElem?_set_ne (by omega), List.getElem?_set_ne (by omega)]
    rcases hs1 with rfl | ⟨rfl, -⟩
    · exact hv
    · obtain ⟨hlt, -⟩ := List.getElem?_eq_some.mp hv
      show (s.async_ids_stack_ ++ List.replicate s.async_ids_stack_.length 0)[i]? = some v
      rw [List.getElem?_append_left hlt]
      exact hv

theorem push_saves_registers_witness :
    AsyncHooks.two_deep.kStackLength < 2147483648 ∧
    push_async_ids AsyncHooks.two_deep 9 7 =
      .done ()
        { AsyncHooks.two_deep with
          async_ids_stack_ := [0, 0, 5, 0, 7, 5] ++ List.replicate 26 0
          kStackLength := 3, kExecutionAsyncId := 9, kTriggerAsyncId := 7 } ∧
    ({ AsyncHooks.two_deep with
        async_ids_stack_ := [0, 0, 5, 0, 7, 5] ++ List.replicate 26 0
        kStackLength := 3, kExecutionAsyncId := 9, kTriggerAsyncId := 7 } : AsyncHooks
      ).async_ids_stack_[2 * AsyncHooks.two_deep.kStackLength]? =
        some AsyncHooks.two_deep.kExecutionAsyncId :=
  ⟨by decide, by decide,
    (push_saves_registers AsyncHooks.two_deep _ 9 7 (by decide) (by decide)).1⟩

/-- C6 (when push fails).  `push_async_ids` takes the fatal path exactly when
checking is enabled (`kCheck > 0`) and one of `async_id >= -1`,
`trigger_async_id >= -1` is false, and then it is a failed `CHECK_GE` in an
unchanged state.  For every other input, ids of any value when checking is
disabled included, the call returns, given the representation invariant and a
stack length below `2^31`. -/
theorem push_fails_iff (s : AsyncHooks) (a t : Int) :
    ((∃ w s', push_async_ids s a t = .fatal w s') ↔
      (0 < s.kCheck ∧ ¬ (-1 ≤ a ∧ -1 ≤ t))) ∧
    ((0 < s.kCheck ∧ ¬ (-1 ≤ a ∧ -1 ≤ t)) → push_async_ids s a t = .fatal .check s) ∧
    (¬ (0 < s.kCheck ∧ ¬ (-1 ≤ a ∧ -1 ≤ t)) → s.Valid → s.kStackLength < 2147483648 →
      ∃ s', push_async_ids s a t = .done () s') := by
  have hfat : (0 < s.kCheck ∧ ¬ (-1 ≤ a ∧ -1 ≤ t)) → push_async_ids s a t = .fatal .check s := by
    rintro ⟨hc, hn⟩
    unfold push_async_ids
    by_cases ha : -1 ≤ a
    · have ht : ¬ (-1 ≤ t) := fun ht => hn ⟨ha, ht⟩
      rw [if_neg (fun h => h.2 ha), if_pos ⟨hc, ht⟩]
    · rw [if_pos ⟨hc, ha⟩]
  have hnot : ¬ (0 < s.kCheck ∧ ¬ (-1 ≤ a ∧ -1 ≤ t)) →
      ∀ w s', push_async_ids s a t ≠ .fatal w s' := by
    intro hn w s' hf
    have h1 : ¬ (0 < s.kCheck ∧ ¬ (-1 ≤ a)) := fun h => hn ⟨h.1, fun hh => h.2 hh.1⟩
    have h2 : ¬ (0 < s.kCheck ∧ ¬ (-1 ≤ t)) := fun h => hn ⟨h.1, fun hh => h.2 hh.2⟩
    unfold push_async_ids at hf
    rw [if_neg h1, if_neg h2] at hf
    dsimp only at hf
    split_ifs at hf
  refine ⟨⟨?_, fun h => ⟨_, _, hfat h⟩⟩, hfat, ?_⟩
  · rintro ⟨w, s', hf⟩
    by_contra hn
    exact hnot hn w s' hf
  · intro hn hv hd
    obtain ⟨s1, h1, -⟩ := push_async_ids_done s a t hv hd
      (fun hc => by
        constructor
        · by_contra ha; exact hn ⟨hc, fun hh => ha hh.1⟩
        · by_contra ht; exact hn ⟨hc, fun hh => ht hh.2⟩)
    exact ⟨s1, h1⟩

theorem push_fails_iff_witness :
    push_async_ids AsyncHooks.new 5 (-2) = .fatal .check AsyncHooks.new ∧
    (∃ s', push_async_ids (no_force_checks AsyncHooks.new) (-7) (-2) = .done () s') :=
  ⟨(push_fails_iff AsyncHooks.new 5 (-2)).2.1 (by decide),
    (push_fails_iff (no_force_checks AsyncHooks.new) (-7) (-2)).2.2
      (by decide) (by decide) (by decide)⟩

/-- C7, the claim as stated, fails: on a freshly constructed host the first
call of `new_async_id` does not return `1`. -/
theorem first_new_async_id_is_not_one : (new_async_id AsyncHooks.new).1 ≠ 1 := by
  decide

/-- C7, amended.  On a freshly constructed host the id counter holds `1`, the
id the constructor reserves for the bootstrap execution context, so the first
call of `new_async_id` returns `2` and leaves the counter at `2`. -/
theorem first_new_async_id_is_two :
    AsyncHooks.new.kAsyncIdCounter = 1 ∧
    (new_async_id AsyncHooks.new).1 = 2 ∧
    (new_async_id AsyncHooks.new).2.kAsyncIdCounter = 2 ∧
    Host.new.run [.new_id] =
      some { hooks := (new_async_id AsyncHooks.new).2, scopes := [], returned := [2] } := by
  decide

/-- C8 (ids are never reused).  `new_async_id` raises the id counter by exactly
one and returns the new counter value; no other call (`push_async_ids`,
`pop_async_id`, `clear_async_id_stack`, scope entry or exit) changes the
counter; so over any sequence of calls the counter never decreases, and the
values handed out by `new_async_id` are strictly increasing, all above the
counter the sequence started from. -/
theorem async_id_counter_monotone (h h' : Host) (ops : List Op)
    (hrun : h.run ops = some h') (hret : h.returned = []) :
    (∀ s : AsyncHooks, new_async_id s =
      (s.kAsyncIdCounter + 1, { s with kAsyncIdCounter := s.kAsyncIdCounter + 1 })) ∧
    (∀ (g g' : Host) (op : Op), op ≠ .new_id → g.step op = some g' →
      g'.hooks.kAsyncIdCounter = g.hooks.kAsyncIdCounter) ∧
    h.hooks.kAsyncIdCounter ≤ h'.hooks.kAsyncIdCounter ∧
    h'.returned.Pairwise (· < ·) ∧
    (∀ x ∈ h'.returned, h.hooks.kAsyncIdCounter < x ∧ x ≤ h'.hooks.kAsyncIdCounter) := by
  obtain ⟨hle, hmem, hpw⟩ := Host.run_counter ops h h' hrun
  refine ⟨fun _ => rfl, ?_, hle, ?_, ?_⟩
  · intro g g' op hop hs
    exact ((Host.step_frame g g' op hs).2.1 hop).1
  · apply hpw
    · rw [hret]; exact List.Pairwise.nil
    · intro x hx; rw [hret] at hx; cases hx
  · intro x hx
    rcases hmem x hx with hx1 | hx1
    · rw [hret] at hx1; cases hx1
    · exact hx1

theorem async_id_counter_monotone_witness :
    Host.new.run [.push 5 0, .new_id, .scope_enter 3, .new_id, .scope_exit, .pop true 5,
        .new_id, .clear] =
      some { hooks := { AsyncHooks.new with kAsyncIdCounter := 4 }
             scopes := [], returned := [2, 3, 4] } ∧
    [(2 : Int), 3, 4].Pairwise (· < ·) :=
  ⟨by decide,
    (async_id_counter_monotone Host.new
      { hooks := { AsyncHooks.new with kAsyncIdCounter := 4 }, scopes := [], returned := [2, 3, 4] }
      [.push 5 0, .new_id, .scope_enter 3, .new_id, .scope_exit, .pop true 5, .new_id, .clear]
      (by decide) rfl).2.2.2.1⟩

/-- C9 (id invariant).  In every state reached from a freshly constructed host
by calls that return (`push_async_ids`, `pop_async_id`, `clear_async_id_stack`,
and also `new_async_id` and scope entries and exits), `kExecutionAsyncId` and
`kTriggerAsyncId` are at least `-1`, and so is every value saved in a stack
slot below the stack length. -/
theorem reachable_ids_at_least_minus_one (ops : List Op) (h' : Host)
    (hrun : Host.new.run ops = some h') :
    -1 ≤ h'.hooks.kExecutionAsyncId ∧ -1 ≤ h'.hooks.kTriggerAsyncId ∧
    ∀ i v, i < 2 * h'.hooks.kStackLength → h'.hooks.async_ids_stack_[i]? = some v →
      -1 ≤ v := by
  have hnew : AsyncHooks.new.IdsValid := by
    refine ⟨by decide, by decide, ?_⟩
    intro v hv
    simp only [AsyncHooks.new, List.mem_replicate] at hv
    rw [hv.2]
    decide
  obtain ⟨he, ht, hs⟩ := Host.run_idsValid ops Host.new h' hrun (by decide) hnew
  exact ⟨he, ht, fun i v _ hv => hs v (List.getElem?_mem hv)⟩

theorem reachable_ids_at_least_minus_one_witness :
    Host.new.run [.push 5 (-1), .push 7 5, .pop true 7] =
      some { hooks :=
              { AsyncHooks.new with
                async_ids_stack_ := [0, 0, 5, -1] ++ List.replicate 28 0
                kStackLength := 1, kExecutionAsyncId := 5, kTriggerAsyncId := -1 }
             scopes := [], returned := [] } ∧
    (-1 : Int) ≤ 5 ∧ (-1 : Int) ≤ -1 :=
  ⟨by decide,
    (reachable_ids_at_least_minus_one [.push 5 (-1), .push 7 5, .pop true 7]
      { hooks :=
          { AsyncHooks.new with
            async_ids_stack_ := [0, 0, 5, -1] ++ List.replicate 28 0
            kStackLength := 1, kExecutionAsyncId := 5, kTriggerAsyncId := -1 }
        scopes := [], returned := [] }
      (by decide)).1,
    (reachable_ids_at_least_minus_one [.push 5 (-1), .push 7 5, .pop true 7]
      { hooks :=
          { AsyncHooks.new with
            async_ids_stack_ := [0, 0, 5, -1] ++ List.replicate 28 0
            kStackLength := 1, kExecutionAsyncId := 5, kTriggerAsyncId := -1 }
        scopes := [], returned := [] }
      (by decide)).2.1⟩

/-- C10 (scoped swap of the default trigger id).  For every state and every
value `v` the constructor accepts (`v >= 0` when checking is enabled), entering
a `DefaultTriggerAsyncIdScope` returns and makes the default trigger id `v`; it
stays `v` across any calls other than scope entries and exits; destroying the
scope then puts back the value from before the entry.  For any sequence of
calls in which scopes are entered and left in LIFO order and which ends with
every scope it entered destroyed, the default trigger id at the end is the one
from before the first entry. -/
theorem default_trigger_scope_restores (s : AsyncHooks) (v : Int)
    (hvalid : 0 < s.kCheck → 0 ≤ v) :
    (∃ sc s1, DefaultTriggerAsyncIdScope.ctor s v = .done sc s1 ∧
      s1.kDefaultTriggerAsyncId = v ∧
      (sc.dtor s1).kDefaultTriggerAsyncId = s.kDefaultTriggerAsyncId ∧
      sc.dtor s1 = s ∧
      ∀ (outer : List DefaultTriggerAsyncIdScope) (r : List Int) (ops : List Op) (h' : Host),
        (∀ op ∈ ops, op.isScopeOp = false) →
        Host.run { hooks := s1, scopes := sc :: outer, returned := r } ops = some h' →
        h'.hooks.kDefaultTriggerAsyncId = v ∧
          (sc.dtor h'.hooks).kDefaultTriggerAsyncId = s.kDefaultTriggerAsyncId) ∧
    (∀ (r : List Int) (ops : List Op) (h' : Host),
      Host.run { hooks := s, scopes := [], returned := r } ops = some h' → h'.scopes = [] →
      h'.hooks.kDefaultTriggerAsyncId = s.kDefaultTriggerAsyncId) := by
  have hc : ¬ (0 < s.kCheck ∧ ¬ (0 ≤ v)) := fun h => h.2 (hvalid h.1)
  refine ⟨⟨{ old_default_trigger_async_id_ := s.kDefaultTriggerAsyncId },
    { s with kDefaultTriggerAsyncId := v }, ?_, rfl, rfl, rfl, ?_⟩, ?_⟩
  · unfold DefaultTriggerAsyncIdScope.ctor
    rw [if_neg hc]
  · intro outer r ops h' hops hr
    obtain ⟨hd, -⟩ := Host.run_no_scope_op ops _ h' hops hr
    exact ⟨hd, rfl⟩
  · intro r ops h' hr hsc
    have hu := Host.run_unwind ops _ h' hr
    unfold Host.unwind at hu
    rw [hsc] at hu
    exact hu

theorem default_trigger_scope_restores_witness :
    Host.new.run [.scope_enter 4, .push 5 0, .scope_enter 9, .new_id, .scope_exit,
        .pop true 5, .scope_exit] =
      some { hooks := { AsyncHooks.new with kAsyncIdCounter := 2 }
             scopes := [], returned := [2] } ∧
    ({ AsyncHooks.new with kAsyncIdCounter := 2 } : AsyncHooks).kDefaultTriggerAsyncId =
      AsyncHooks.new.kDefaultTriggerAsyncId :=
  ⟨by decide,
    (default_trigger_scope_restores AsyncHooks.new 4 (fun _ => by decide)).2 []
      [.scope_enter 4, .push 5 0, .scope_enter 9, .new_id, .scope_exit, .pop true 5,
        .scope_exit]
      { hooks := { AsyncHooks.new with kAsyncIdCounter := 2 }, scopes := [], returned := [2] }
      (by decide) rfl⟩

theorem ImmediateInfo.run_count (ops : List CounterOp) :
    ∀ i : ImmediateInfo, i.kCount < 4294967296 →
      ((i.run ops).kCount : Int) =
        ((i.kCount : Int) + CounterOp.net_count ops) % 4294967296 := by
  induction ops with
  | nil =>
    intro i hi
    simp only [ImmediateInfo.run, CounterOp.net_count]
    omega
  | cons op ops ih =>
    intro i hi
    have hstep : ∀ j : ImmediateInfo, ∀ d : Int, j.kCount < 4294967296 →
        ((j.kCount : Int) = ((i.kCount : Int) + d) % 4294967296) →
        ((j.run ops).kCount : Int) =
          ((i.kCount : Int) + (d + CounterOp.net_count ops)) % 4294967296 := by
      intro j d hlt hj
      rw [ih j hlt, hj]
      omega
    cases op with
    | count_inc n =>
      refine hstep _ n ?_ ?_ <;>
        simp only [ImmediateInfo.apply, ImmediateInfo.count_inc, UINT32_MOD] <;> omega
    | count_dec n =>
      refine hstep _ (-n) ?_ ?_ <;>
        simp only [ImmediateInfo.apply, ImmediateInfo.count_dec, UINT32_MOD] <;> omega
    | ref_count_inc n =>
      have h := hstep (i.ref_count_inc n) 0 hi (by
        simp only [ImmediateInfo.ref_count_inc]; omega)
      simpa [ImmediateInfo.run, ImmediateInfo.apply, CounterOp.net_count] using h
    | ref_count_dec n =>
      have h := hstep (i.ref_count_dec n) 0 hi (by
        simp only [ImmediateInfo.ref_count_dec]; omega)
      simpa [ImmediateInfo.run, ImmediateInfo.apply, CounterOp.net_count] using h

theorem ImmediateInfo.run_ref_count (ops : List CounterOp) :
    ∀ i : ImmediateInfo, i.kRefCount < 4294967296 →
      ((i.run ops).kRefCount : Int) =
        ((i.kRefCount : Int) + CounterOp.net_ref_count ops) % 4294967296 := by
  induction ops with
  | nil =>
    intro i hi
    simp only [ImmediateInfo.run, CounterOp.net_ref_count]
    omega
  | cons op ops ih =>
    intro i hi
    have hstep : ∀ j : ImmediateInfo, ∀ d : Int, j.kRefCount < 4294967296 →
        ((j.kRefCount : Int) = ((i.kRefCount : Int) + d) % 4294967296) →
        ((j.run ops).kRefCount : Int) =
          ((i.kRefCount : Int) + (d + CounterOp.net_ref_count ops)) % 4294967296 := by
      intro j d hlt hj
      rw [ih j hlt, hj]
      omega
    cases op with
    | ref_count_inc n =>
      refine hstep _ n ?_ ?_ <;>
        simp only [ImmediateInfo.apply, ImmediateInfo.ref_count_inc, UINT32_MOD] <;> omega
    | ref_count_dec n =>
      refine hstep _ (-n) ?_ ?_ <;>
        simp only [ImmediateInfo.apply, ImmediateInfo.ref_count_dec, UINT32_MOD] <;> omega
    | count_inc n =>
      have h := hstep (i.count_inc n) 0 hi (by
        simp only [ImmediateInfo.count_inc]; omega)
      simpa [ImmediateInfo.run, ImmediateInfo.apply, CounterOp.net_ref_count] using h
    | count_dec n =>
      have h := hstep (i.count_dec n) 0 hi (by
        simp only [ImmediateInfo.count_dec]; omega)
      simpa [ImmediateInfo.run, ImmediateInfo.apply, CounterOp.net_ref_count] using h

/-- C11 (counter balance).  For every initial `uint32_t` count `c` and every
sequence of `count_inc` / `count_dec` calls (interleaved with `ref_count` calls
at will), `count()` afterwards is `(c + increments - decrements) mod 2^32`; two
sequences with the same net total leave the same count; and `count()` is the
net sum itself whenever that sum lies in `[0, 2^32)`.  The same holds for
`ref_count()` with `ref_count_inc` / `ref_count_dec`. -/
theorem counter_balance (i : ImmediateInfo) (ops : List CounterOp)
    (hc : i.kCount < 4294967296) (hr : i.kRefCount < 4294967296) :
    (((i.run ops).count : Int) =
      ((i.count : Int) + CounterOp.net_count ops) % 4294967296) ∧
    (((i.run ops).ref_count : Int) =
      ((i.ref_count : Int) + CounterOp.net_ref_count ops) % 4294967296) ∧
    (∀ ops2, CounterOp.net_count ops2 = CounterOp.net_count ops →
      (i.run ops2).count = (i.run ops).count) ∧
    (∀ ops2, CounterOp.net_ref_count ops2 = CounterOp.net_ref_count ops →
      (i.run ops2).ref_count = (i.run ops).ref_count) ∧
    (0 ≤ (i.count : Int) + CounterOp.net_count ops →
      (i.count : Int) + CounterOp.net_count ops < 4294967296 →
      ((i.run ops).count : Int) = (i.count : Int) + CounterOp.net_count ops) ∧
    (0 ≤ (i.ref_count : Int) + CounterOp.net_ref_count ops →
      (i.ref_count : Int) + CounterOp.net_ref_count ops < 4294967296 →
      ((i.run ops).ref_count : Int) = (i.ref_count : Int) + CounterOp.net_ref_count ops) := by
  have h1 := ImmediateInfo.run_count ops i hc
  have h2 := ImmediateInfo.run_ref_count ops i hr
  simp only [ImmediateInfo.count, ImmediateInfo.ref_count]
  refine ⟨h1, h2, ?_, ?_, ?_, ?_⟩
  · intro ops2 hn
    have h3 := ImmediateInfo.run_count ops2 i hc
    rw [hn, ← h1] at h3
    exact Int.ofNat.inj h3
  · intro ops2 hn
    have h3 := ImmediateInfo.run_ref_count ops2 i hr
    rw [hn, ← h2] at h3
    exact Int.ofNat.inj h3
  · intro hlo hhi
    rw [h1]
    omega
  · intro hlo hhi
    rw [h2]
    omega

theorem counter_balance_witness :
    (({ kCount := 0, kRefCount := 0, kHasOutstanding := 0 } : ImmediateInfo).run
      [.count_inc 3, .ref_count_inc 1, .count_dec 1, .count_inc 2, .count_dec 4]).count = 0 ∧
    (({ kCount := 0, kRefCount := 0, kHasOutstanding := 0 } : ImmediateInfo).run
      [.count_dec 4, .count_inc 5, .count_dec 1]).count = 0 ∧
    (({ kCount := 0, kRefCount := 0, kHasOutstanding := 0 } : ImmediateInfo).run
      [.count_dec 1]).count = 4294967295 ∧
    (({ kCount := 0, kRefCount := 0, kHasOutstanding := 0 } : ImmediateInfo).run
      [.count_dec 4, .count_inc 5, .count_dec 1]).count =
    (({ kCount := 0, kRefCount := 0, kHasOutstanding := 0 } : ImmediateInfo).run
      [.count_inc 3, .ref_count_inc 1, .count_dec 1, .count_inc 2, .count_dec 4]).count :=
  ⟨by decide, by decide, by decide,
    (counter_balance { kCount := 0, kRefCount := 0, kHasOutstanding := 0 }
      [.count_inc 3, .ref_count_inc 1, .count_dec 1, .count_inc 2, .count_dec 4]
      (by decide) (by decide)).2.2.1
      [.count_dec 4, .count_inc 5, .count_dec 1] (by decide)⟩

/-- C12, the claim as stated, fails: with `count()` at `2^32 - 1`, the value one
`count_dec(1)` gives on a fresh `ImmediateInfo`, `SetImmediate` and
`SetUnrefImmediate` leave `count()` at `0` and have not raised it by `1`; the
same holds for `ref_count()`. -/
theorem set_immediate_count_wraps :
    (({ kCount := 0, kRefCount := 0, kHasOutstanding := 0 } : ImmediateInfo).count_dec
      1).count = 4294967295 ∧
    (SetImmediate
        { native_immediate_callbacks_ := []
          immediate_info_ := { kCount := 4294967295, kRefCount := 0, kHasOutstanding := 0 }
          liveness_handle_active := false
          ToggleImmediateRef_calls := [] } 11 22 33).immediate_info_.count = 0 ∧
    (SetImmediate
        { native_immediate_callbacks_ := []
          immediate_info_ := { kCount := 4294967295, kRefCount := 0, kHasOutstanding := 0 }
          liveness_handle_active := false
          ToggleImmediateRef_calls := [] } 11 22 33).immediate_info_.count ≠
      4294967295 + 1 ∧
    (SetUnrefImmediate
        { native_immediate_callbacks_ := []
          immediate_info_ := { kCount := 4294967295, kRefCount := 0, kHasOutstanding := 0 }
          liveness_handle_active := false
          ToggleImmediateRef_calls := [] } 11 22 33).immediate_info_.count ≠
      4294967295 + 1 ∧
    (SetImmediate
        { native_immediate_callbacks_ := []
          immediate_info_ := { kCount := 0, kRefCount := 4294967295, kHasOutstanding := 0 }
          liveness_handle_active := true
          ToggleImmediateRef_calls := [] } 11 22 33).immediate_info_.ref_count ≠
      4294967295 + 1 := by
  decide

/-- C12, amended.  `SetImmediate` appends one callback, with `ref` set, to the
back of `native_immediate_callbacks_`, raises `count` and `ref_count` by one
modulo `2^32` (by exactly one unless the field holds `2^32 - 1`, from which it
wraps to `0`), and calls `ToggleImmediateRef(true)`, marking the liveness handle
active, exactly when `ref_count` was `0` before the call.  `SetUnrefImmediate`
appends one callback without `ref`, raises `count` the same way, and leaves
`ref_count` and the liveness handle as they were. -/
theorem set_immediate_effect (env : ImmediateEnv) (cb data obj : Nat) :
    ((SetImmediate env cb data obj).native_immediate_callbacks_ =
      env.native_immediate_callbacks_ ++
        [{ cb_ := cb, data_ := data, keep_alive_ := obj, refed_ := true }]) ∧
    ((SetImmediate env cb data obj).immediate_info_.count =
      (env.immediate_info_.count + 1) % UINT32_MOD) ∧
    ((SetImmediate env cb data obj).immediate_info_.ref_count =
      (env.immediate_info_.ref_count + 1) % UINT32_MOD) ∧
    (env.immediate_info_.count + 1 < UINT32_MOD →
      (SetImmediate env cb data obj).immediate_info_.count = env.immediate_info_.count + 1) ∧
    (env.immediate_info_.ref_count + 1 < UINT32_MOD →
      (SetImmediate env cb data obj).immediate_info_.ref_count =
        env.immediate_info_.ref_count + 1) ∧
    (env.immediate_info_.ref_count = 0 →
      (SetImmediate env cb data obj).ToggleImmediateRef_calls =
        env.ToggleImmediateRef_calls ++ [true] ∧
      (SetImmediate env cb data obj).liveness_handle_active = true) ∧
    (env.immediate_info_.ref_count ≠ 0 →
      (SetImmediate env cb data obj).ToggleImmediateRef_calls = env.ToggleImmediateRef_calls ∧
      (SetImmediate env cb data obj).liveness_handle_active = env.liveness_handle_active) ∧
    ((SetUnrefImmediate env cb data obj).native_immediate_callbacks_ =
      env.native_immediate_callbacks_ ++
        [{ cb_ := cb, data_ := data, keep_alive_ := obj, refed_ := false }]) ∧
    ((SetUnrefImmediate env cb data obj).immediate_info_.count =
      (env.immediate_info_.count + 1) % UINT32_MOD) ∧
    (env.immediate_info_.count + 1 < UINT32_MOD →
      (SetUnrefImmediate env cb data obj).immediate_info_.count =
        env.immediate_info_.count + 1) ∧
    ((SetUnrefImmediate env cb data obj).immediate_info_.ref_count =
      env.immediate_info_.ref_count) ∧
    ((SetUnrefImmediate env cb data obj).ToggleImmediateRef_calls =
      env.ToggleImmediateRef_calls) ∧
    ((SetUnrefImmediate env cb data obj).liveness_handle_active =
      env.liveness_handle_active) := by
  have hu : ∀ n : Nat, n + 1 < UINT32_MOD → (n + 1) % UINT32_MOD = n + 1 :=
    fun n h => Nat.mod_eq_of_lt h
  by_cases h0 : env.immediate_info_.ref_count = 0
  · have e : SetImmediate env cb data obj =
        { ToggleImmediateRef (CreateImmediate env cb data obj true) true with
          immediate_info_ :=
            (ToggleImmediateRef (CreateImmediate env cb data obj true)
              true).immediate_info_.ref_count_inc 1 } := by
      unfold SetImmediate
      dsimp only
      rw [if_pos (show (CreateImmediate env cb data obj true).immediate_info_.ref_count = 0
        from h0)]
    rw [e]
    exact ⟨rfl, rfl, rfl, hu _, hu _, fun _ => ⟨rfl, rfl⟩, fun h => absurd h0 h,
      rfl, rfl, hu _, rfl, rfl, rfl⟩
  · have e : SetImmediate env cb data obj =
        { CreateImmediate env cb data obj true with
          immediate_info_ :=
            (CreateImmediate env cb data obj true).immediate_info_.ref_count_inc 1 } := by
      unfold SetImmediate
      dsimp only
      rw [if_neg (show ¬ (CreateImmediate env cb data obj true).immediate_info_.ref_count = 0
        from h0)]
    rw [e]
    exact ⟨rfl, rfl, rfl, hu _, hu _, fun h => absurd h h0, fun _ => ⟨rfl, rfl⟩,
      rfl, rfl, hu _, rfl, rfl, rfl⟩

theorem set_immediate_effect_witness :
    SetImmediate
        { native_immediate_callbacks_ := []
          immediate_info_ := { kCount := 0, kRefCount := 0, kHasOutstanding := 0 }
          liveness_handle_active := false
          ToggleImmediateRef_calls := [] } 11 22 33 =
      { native_immediate_callbacks_ :=
          [{ cb_ := 11, data_ := 22, keep_alive_ := 33, refed_ := true }]
        immediate_info_ := { kCount := 1, kRefCount := 1, kHasOutstanding := 0 }
        liveness_handle_active := true
        ToggleImmediateRef_calls := [true] } ∧
    (SetImmediate
        { native_immediate_callbacks_ := []
          immediate_info_ := { kCount := 0, kRefCount := 0, kHasOutstanding := 0 }
          liveness_handle_active := false
          ToggleImmediateRef_calls := [] } 11 22 33).immediate_info_.count = 0 + 1 :=
  ⟨by decide,
    (set_immediate_effect
      { native_immediate_callbacks_ := []
        immediate_info_ := { kCount := 0, kRefCount := 0, kHasOutstanding := 0 }
        liveness_handle_active := false
        ToggleImmediateRef_calls := [] } 11 22 33).2.2.2.1 (by decide)⟩

theorem CleanupHookCallback.equal_key (h : CleanupHookCallback) (fn arg seq : Nat) :
    h.Equal { fn_ := fn, arg_ := arg, insertion_sequence := seq } = true ↔
      h.fn_ = fn ∧ h.arg_ = arg := by
  simp [CleanupHookCallback.Equal]

theorem CleanupHookCallback.not_equal_key (h : CleanupHookCallback) (fn arg seq : Nat) :
    (!h.Equal { fn_ := fn, arg_ := arg, insertion_sequence := seq }) = true ↔
      ¬ (h.fn_ = fn ∧ h.arg_ = arg) := by
  rw [← CleanupHookCallback.equal_key h fn arg seq]
  cases h.Equal { fn_ := fn, arg_ := arg, insertion_sequence := seq } <;> simp

theorem CleanupHookCallback.any_equal_iff (l : List CleanupHookCallback) (fn arg seq : Nat) :
    l.any (fun h => h.Equal { fn_ := fn, arg_ := arg, insertion_sequence := seq }) = true ↔
      ∃ h ∈ l, h.fn_ = fn ∧ h.arg_ = arg := by
  rw [List.any_eq_true]
  constructor
  · rintro ⟨h, hm, he⟩
    exact ⟨h, hm, (CleanupHookCallback.equal_key h fn arg seq).mp he⟩
  · rintro ⟨h, hm, he⟩
    exact ⟨h, hm, (CleanupHookCallback.equal_key h fn arg seq).mpr he⟩

theorem AddCleanupHook_of_absent (env : CleanupEnv) (fn arg : Nat)
    (h : ¬ ∃ h ∈ env.cleanup_hooks_, h.fn_ = fn ∧ h.arg_ = arg) :
    AddCleanupHook env fn arg =
      .done { cleanup_hooks_ := env.cleanup_hooks_ ++
                [{ fn_ := fn, arg_ := arg, insertion_sequence := env.cleanup_hook_counter_ }]
              cleanup_hook_counter_ := (env.cleanup_hook_counter_ + 1) % UINT64_MOD } := by
  unfold AddCleanupHook
  dsimp only
  rw [if_neg]
  rw [CleanupHookCallback.any_equal_iff]
  exact h

theorem AddCleanupHook_of_present (env : CleanupEnv) (fn arg : Nat)
    (h : ∃ h ∈ env.cleanup_hooks_, h.fn_ = fn ∧ h.arg_ = arg) :
    AddCleanupHook env fn arg =
      .fatal { env with
        cleanup_hook_counter_ := (env.cleanup_hook_counter_ + 1) % UINT64_MOD } := by
  unfold AddCleanupHook
  dsimp only
  rw [if_pos]
  rw [CleanupHookCallback.any_equal_iff]
  exact h

theorem RemoveCleanupHook_mem (env : CleanupEnv) (fn arg : Nat) (h : CleanupHookCallback) :
    h ∈ (RemoveCleanupHook env fn arg).cleanup_hooks_ ↔
      h ∈ env.cleanup_hooks_ ∧ ¬ (h.fn_ = fn ∧ h.arg_ = arg) := by
  unfold RemoveCleanupHook
  dsimp only
  rw [List.mem_filter, CleanupHookCallback.not_equal_key]

theorem filter_unique_length (fn arg : Nat) (l : List CleanupHookCallback)
    (hu : l.Pairwise (fun a b => a.Equal b = false))
    (hex : ∃ h ∈ l, h.fn_ = fn ∧ h.arg_ = arg) :
    (l.filter (fun h =>
      !h.Equal { fn_ := fn, arg_ := arg, insertion_sequence := 0 })).length + 1 = l.length := by
  induction l with
  | nil => obtain ⟨h, hm, -⟩ := hex; cases hm
  | cons a t ih =>
    rw [List.pairwise_cons] at hu
    obtain ⟨hat, ht⟩ := hu
    by_cases ha : a.fn_ = fn ∧ a.arg_ = arg
    · have hnone : ∀ b ∈ t, ¬ (b.fn_ = fn ∧ b.arg_ = arg) := by
        intro b hb hbm
        have h1 := hat b hb
        have h2 : a.Equal b = true := by
          simp [CleanupHookCallback.Equal, ha.1, ha.2, hbm.1, hbm.2]
        rw [h1] at h2
        cases h2
      have hfilt : t.filter (fun h =>
          !h.Equal { fn_ := fn, arg_ := arg, insertion_sequence := 0 }) = t := by
        rw [List.filter_eq_self]
        intro b hb
        exact (CleanupHookCallback.not_equal_key b fn arg 0).mpr (hnone b hb)
      have hhead : ¬ ((!a.Equal { fn_ := fn, arg_ := arg, insertion_sequence := 0 }) = true) :=
        fun h => (CleanupHookCallback.not_equal_key a fn arg 0).mp h ha
      rw [List.filter_cons, if_neg hhead, hfilt]
      rfl
    · have hhead : (!a.Equal { fn_ := fn, arg_ := arg, insertion_sequence := 0 }) = true :=
        (CleanupHookCallback.not_equal_key a fn arg 0).mpr ha
      have hex2 : ∃ h ∈ t, h.fn_ = fn ∧ h.arg_ = arg := by
        obtain ⟨h, hm, hk⟩ := hex
        rcases List.mem_cons.mp hm with rfl | hm
        · exact absurd hk ha
        · exact ⟨h, hm, hk⟩
      rw [List.filter_cons, if_pos hhead, List.length_cons, List.length_cons, ih ht hex2]

/-- C13 (duplicate registration is fatal).  `AddCleanupHook(fn, arg)` ends on the
failed `CHECK` exactly when the registry already holds an entry with the same
`fn` and the same `arg`; otherwise it returns, having added the one entry
`(fn, arg, current counter value)` behind the unchanged old entries.  Two hooks
that differ in `fn` or in `arg` can both be registered. -/
theorem add_cleanup_hook_fails_iff (env : CleanupEnv) (fn arg : Nat) :
    ((∃ env', AddCleanupHook env fn arg = .fatal env') ↔
      ∃ h ∈ env.cleanup_hooks_, h.fn_ = fn ∧ h.arg_ = arg) ∧
    ((¬ ∃ h ∈ env.cleanup_hooks_, h.fn_ = fn ∧ h.arg_ = arg) →
      AddCleanupHook env fn arg =
        .done { cleanup_hooks_ := env.cleanup_hooks_ ++
                  [{ fn_ := fn, arg_ := arg, insertion_sequence := env.cleanup_hook_counter_ }]
                cleanup_hook_counter_ := (env.cleanup_hook_counter_ + 1) % UINT64_MOD }) ∧
    (∀ (fn2 arg2 : Nat) (env1 : CleanupEnv), (fn2 ≠ fn ∨ arg2 ≠ arg) →
      (¬ ∃ h ∈ env.cleanup_hooks_, h.fn_ = fn2 ∧ h.arg_ = arg2) →
      AddCleanupHook env fn arg = .done env1 →
      ∃ env2, AddCleanupHook env1 fn2 arg2 = .done env2 ∧
        (∃ h ∈ env2.cleanup_hooks_, h.fn_ = fn ∧ h.arg_ = arg) ∧
        (∃ h ∈ env2.cleanup_hooks_, h.fn_ = fn2 ∧ h.arg_ = arg2)) := by
  refine ⟨⟨?_, fun h => ⟨_, AddCleanupHook_of_present env fn arg h⟩⟩,
    AddCleanupHook_of_absent env fn arg, ?_⟩
  · rintro ⟨env', hf⟩
    by_contra hn
    rw [AddCleanupHook_of_absent env fn arg hn] at hf
    cases hf
  · intro fn2 arg2 env1 hne habs hadd
    have hno : ¬ ∃ h ∈ env.cleanup_hooks_, h.fn_ = fn ∧ h.arg_ = arg := by
      intro hp
      rw [AddCleanupHook_of_present env fn arg hp] at hadd
      cases hadd
    rw [AddCleanupHook_of_absent env fn arg hno] at hadd
    cases hadd
    have habs1 : ¬ ∃ h ∈ env.cleanup_hooks_ ++
        [({ fn_ := fn, arg_ := arg, insertion_sequence := env.cleanup_hook_counter_ } :
          CleanupHookCallback)], h.fn_ = fn2 ∧ h.arg_ = arg2 := by
      rintro ⟨h, hm, hk⟩
      rcases List.mem_append.mp hm with hm | hm
      · exact habs ⟨h, hm, hk⟩
      · rw [List.mem_singleton] at hm
        subst hm
        rcases hne with hne | hne
        · exact hne hk.1.symm
        · exact hne hk.2.symm
    refine ⟨_, AddCleanupHook_of_absent _ fn2 arg2 habs1, ?_, ?_⟩
    · exact ⟨{ fn_ := fn, arg_ := arg, insertion_sequence := env.cleanup_hook_counter_ },
        by simp, rfl, rfl⟩
    · exact ⟨_, List.mem_append_right _ (List.mem_singleton_self _), rfl, rfl⟩

theorem add_cleanup_hook_fails_iff_witness :
    AddCleanupHook { cleanup_hooks_ := [⟨1, 10, 0⟩], cleanup_hook_counter_ := 1 } 1 20 =
      .done { cleanup_hooks_ := [⟨1, 10, 0⟩, ⟨1, 20, 1⟩], cleanup_hook_counter_ := 2 } ∧
    (∃ env', AddCleanupHook { cleanup_hooks_ := [⟨1, 10, 0⟩], cleanup_hook_counter_ := 1 }
      1 10 = .fatal env') :=
  ⟨(add_cleanup_hook_fails_iff { cleanup_hooks_ := [⟨1, 10, 0⟩], cleanup_hook_counter_ := 1 }
      1 20).2.1 (by decide),
    (add_cleanup_hook_fails_iff { cleanup_hooks_ := [⟨1, 10, 0⟩], cleanup_hook_counter_ := 1 }
      1 10).1.mpr ⟨⟨1, 10, 0⟩, by decide, rfl, rfl⟩⟩

/-- C14 (unregistration never fails and is idempotent).  `RemoveCleanupHook(fn,
arg)` always returns; afterwards the registry holds exactly the entries it held
before whose `(fn, arg)` differs from the given pair, whatever their sequence
numbers; if no entry matched, the registry is unchanged; in a registry that is a
set and holds a matching entry, exactly one entry is gone; the counter is
untouched; and a second call changes nothing more. -/
theorem remove_cleanup_hook_effect (env : CleanupEnv) (fn arg : Nat) :
    (∀ h, h ∈ (RemoveCleanupHook env fn arg).cleanup_hooks_ ↔
      h ∈ env.cleanup_hooks_ ∧ ¬ (h.fn_ = fn ∧ h.arg_ = arg)) ∧
    ((RemoveCleanupHook env fn arg).cleanup_hook_counter_ = env.cleanup_hook_counter_) ∧
    ((¬ ∃ h ∈ env.cleanup_hooks_, h.fn_ = fn ∧ h.arg_ = arg) →
      RemoveCleanupHook env fn arg = env) ∧
    (env.Unique → (∃ h ∈ env.cleanup_hooks_, h.fn_ = fn ∧ h.arg_ = arg) →
      (RemoveCleanupHook env fn arg).cleanup_hooks_.length + 1 = env.cleanup_hooks_.length) ∧
    (RemoveCleanupHook (RemoveCleanupHook env fn arg) fn arg = RemoveCleanupHook env fn arg) := by
  refine ⟨RemoveCleanupHook_mem env fn arg, rfl, ?_, ?_, ?_⟩
  · intro hn
    have : env.cleanup_hooks_.filter (fun h =>
        !h.Equal { fn_ := fn, arg_ := arg, insertion_sequence := 0 }) = env.cleanup_hooks_ := by
      rw [List.filter_eq_self]
      intro b hb
      exact (CleanupHookCallback.not_equal_key b fn arg 0).mpr (fun hk => hn ⟨b, hb, hk⟩)
    unfold RemoveCleanupHook
    dsimp only
    rw [this]
  · intro hu hex
    exact filter_unique_length fn arg env.cleanup_hooks_ hu hex
  · unfold RemoveCleanupHook
    dsimp only
    rw [List.filter_filter]
    congr 1
    apply List.filter_congr
    intro x _
    cases (x.Equal { fn_ := fn, arg_ := arg, insertion_sequence := 0 }) <;> rfl

theorem remove_cleanup_hook_effect_witness :
    RemoveCleanupHook
        { cleanup_hooks_ := [⟨1, 10, 0⟩, ⟨1, 20, 1⟩, ⟨2, 10, 2⟩], cleanup_hook_counter_ := 3 }
        1 20 =
      { cleanup_hooks_ := [⟨1, 10, 0⟩, ⟨2, 10, 2⟩], cleanup_hook_counter_ := 3 } ∧
    RemoveCleanupHook
        { cleanup_hooks_ := [⟨1, 10, 0⟩, ⟨2, 10, 2⟩], cleanup_hook_counter_ := 3 } 1 20 =
      { cleanup_hooks_ := [⟨1, 10, 0⟩, ⟨2, 10, 2⟩], cleanup_hook_counter_ := 3 } ∧
    (RemoveCleanupHook
        { cleanup_hooks_ := [⟨1, 10, 0⟩, ⟨1, 20, 1⟩, ⟨2, 10, 2⟩], cleanup_hook_counter_ := 3 }
        1 20).cleanup_hooks_.length + 1 = 3 :=
  ⟨by decide,
    (remove_cleanup_hook_effect
      { cleanup_hooks_ := [⟨1, 10, 0⟩, ⟨2, 10, 2⟩], cleanup_hook_counter_ := 3 } 1 20).2.2.1
      (by decide),
    (remove_cleanup_hook_effect
      { cleanup_hooks_ := [⟨1, 10, 0⟩, ⟨1, 20, 1⟩, ⟨2, 10, 2⟩], cleanup_hook_counter_ := 3 }
      1 20).2.2.2.1 (by unfold CleanupEnv.Unique; decide) ⟨⟨1, 20, 1⟩, by decide, rfl, rfl⟩⟩

theorem AddCleanupHook_ordered (env env1 : CleanupEnv) (fn arg : Nat)
    (ho : env.Ordered) (hb : env.cleanup_hook_counter_ + 1 < UINT64_MOD)
    (ha : AddCleanupHook env fn arg = .done env1) :
    env1.Ordered ∧ env1.cleanup_hook_counter_ = env.cleanup_hook_counter_ + 1 := by
  have hno : ¬ ∃ h ∈ env.cleanup_hooks_, h.fn_ = fn ∧ h.arg_ = arg := by
    intro hp
    rw [AddCleanupHook_of_present env fn arg hp] at ha
    cases ha
  rw [AddCleanupHook_of_absent env fn arg hno] at ha
  cases ha
  have hc : (env.cleanup_hook_counter_ + 1) % UINT64_MOD = env.cleanup_hook_counter_ + 1 :=
    Nat.mod_eq_of_lt hb
  obtain ⟨hp, hlt⟩ := ho
  refine ⟨⟨?_, ?_⟩, hc⟩
  · show (env.cleanup_hooks_ ++ [_]).Pairwise _
    rw [List.pairwise_append]
    refine ⟨hp, List.pairwise_singleton _ _, ?_⟩
    intro a ha b hb2
    rw [List.mem_singleton] at hb2
    subst hb2
    exact hlt a ha
  · intro h hm
    show h.insertion_sequence < (env.cleanup_hook_counter_ + 1) % UINT64_MOD
    rw [hc]
    rcases List.mem_append.mp hm with hm | hm
    · exact Nat.lt_succ_of_lt (hlt h hm)
    · rw [List.mem_singleton] at hm
      subst hm
      exact Nat.lt_succ_self _

theorem RemoveCleanupHook_ordered (env : CleanupEnv) (fn arg : Nat) (ho : env.Ordered) :
    (RemoveCleanupHook env fn arg).Ordered := by
  obtain ⟨hp, hlt⟩ := ho
  refine ⟨?_, ?_⟩
  · exact hp.sublist (List.filter_sublist _)
  · intro h hm
    exact hlt h ((RemoveCleanupHook_mem env fn arg h).mp hm).1

theorem CleanupEnv.run_ordered (ops : List HookOp) :
    ∀ env env' : CleanupEnv, env.Ordered →
      env.cleanup_hook_counter_ + ops.length < UINT64_MOD →
      env.run ops = some env' → env'.Ordered := by
  induction ops with
  | nil =>
    intro env env' ho _ hr
    simp only [CleanupEnv.run, Option.some.injEq] at hr
    subst hr
    exact ho
  | cons op ops ih =>
    intro env env' ho hb hr
    rw [List.length_cons] at hb
    cases op with
    | add fn arg =>
      cases hadd : AddCleanupHook env fn arg with
      | fatal e => simp only [CleanupEnv.run, hadd] at hr; cases hr
      | done env1 =>
        simp only [CleanupEnv.run, hadd] at hr
        obtain ⟨ho1, hc1⟩ := AddCleanupHook_ordered env env1 fn arg ho (by omega) hadd
        exact ih env1 env' ho1 (by omega) hr
    | remove fn arg =>
      simp only [CleanupEnv.run] at hr
      exact ih _ env' (RemoveCleanupHook_ordered env fn arg ho)
        (by show env.cleanup_hook_counter_ + ops.length < UINT64_MOD; omega) hr

theorem orderedInsert_last (a : CleanupHookCallback) (l : List CleanupHookCallback)
    (h : ∀ b ∈ l, a.insertion_sequence < b.insertion_sequence) :
    l.orderedInsert (fun a b => b.insertion_sequence ≤ a.insertion_sequence) a = l ++ [a] := by
  induction l with
  | nil => rfl
  | cons b t ih =>
    have hb : ¬ (b.insertion_sequence ≤ a.insertion_sequence) :=
      Nat.not_le.mpr (h b (List.mem_cons_self _ _))
    rw [List.orderedInsert, if_neg hb, ih (fun c hc => h c (List.mem_cons_of_mem _ hc))]
    rfl

theorem insertionSort_descending (l : List CleanupHookCallback)
    (h : l.Pairwise (fun a b => a.insertion_sequence < b.insertion_sequence)) :
    l.insertionSort (fun a b => b.insertion_sequence ≤ a.insertion_sequence) = l.reverse := by
  induction l with
  | nil => rfl
  | cons a t ih =>
    rw [List.pairwise_cons] at h
    rw [List.insertionSort, ih h.2, List.reverse_cons]
    apply orderedInsert_last
    intro b hb
    exact h.1 b (List.mem_reverse.mp hb)

/-- C15 (cleanup ordering).  From a registry whose sequence numbers strictly
increase in registration order and lie below the counter (the empty registry
is one), after any sequence of `AddCleanupHook` / `RemoveCleanupHook` calls that
all return, and as long as the 64-bit counter does not wrap, the hooks left
carry pairwise distinct sequence numbers, a hook registered later carries a
strictly greater number, and the hooks taken in descending sequence order
are the hooks in reverse registration order. -/
theorem cleanup_hooks_run_in_reverse_order (env env' : CleanupEnv) (ops : List HookOp)
    (ho : env.Ordered) (hb : env.cleanup_hook_counter_ + ops.length < UINT64_MOD)
    (hr : env.run ops = some env') :
    env'.cleanup_hooks_.Pairwise (fun a b => a.insertion_sequence < b.insertion_sequence) ∧
    (env'.cleanup_hooks_.map (fun h => h.insertion_sequence)).Nodup ∧
    env'.teardown_order = env'.cleanup_hooks_.reverse := by
  obtain ⟨hp, -⟩ := CleanupEnv.run_ordered ops env env' ho hb hr
  refine ⟨hp, ?_, insertionSort_descending _ hp⟩
  rw [List.Nodup, List.pairwise_map]
  exact hp.imp (fun hlt => Nat.ne_of_lt hlt)

theorem cleanup_hooks_run_in_reverse_order_witness :
    CleanupEnv.run { cleanup_hooks_ := [], cleanup_hook_counter_ := 0 }
        [.add 1 10, .add 1 20, .add 2 30] =
      some { cleanup_hooks_ := [⟨1, 10, 0⟩, ⟨1, 20, 1⟩, ⟨2, 30, 2⟩]
             cleanup_hook_counter_ := 3 } ∧
    CleanupEnv.teardown_order
        { cleanup_hooks_ := [⟨1, 10, 0⟩, ⟨1, 20, 1⟩, ⟨2, 30, 2⟩], cleanup_hook_counter_ := 3 } =
      [⟨2, 30, 2⟩, ⟨1, 20, 1⟩, ⟨1, 10, 0⟩] :=
  ⟨by decide,
    (cleanup_hooks_run_in_reverse_order
      { cleanup_hooks_ := [], cleanup_hook_counter_ := 0 }
      { cleanup_hooks_ := [⟨1, 10, 0⟩, ⟨1, 20, 1⟩, ⟨2, 30, 2⟩], cleanup_hook_counter_ := 3 }
      [.add 1 10, .add 1 20, .add 2 30]
      ⟨List.Pairwise.nil, fun h hm => by cases hm⟩ (by decide) (by decide)).2.2⟩

/-- C16, the claim as stated, fails: a registered hook whose finalizer is not
`BaseObject::DeleteMe` (here finalizer `7`, argument `3`, with `DeleteMe` at
address `1`) is not handed to the visitor at all. -/
theorem for_each_base_object_skips_other_finalizers :
    ¬ (∀ hook ∈ ({ cleanup_hooks_ := [⟨7, 3, 0⟩], cleanup_hook_counter_ := 1 } :
          CleanupEnv).cleanup_hooks_,
        (visited_objects 1 { cleanup_hooks_ := [⟨7, 3, 0⟩], cleanup_hook_counter_ := 1 }).count
          hook.arg_ = 1) := by
  decide

/-- C16, amended.  `ForEachBaseObject` leaves the registry as it was and calls
the visitor once for each registered hook whose finalizer is
`BaseObject::DeleteMe` and whose argument is not null, with that argument;
hooks with any other finalizer are skipped. -/
theorem for_each_base_object_visits {σ : Type} (DeleteMe : Nat) (env : CleanupEnv)
    (iterator : Nat → σ → σ) (init : σ) :
    (ForEachBaseObject DeleteMe env iterator init).1 = env ∧
    visited_objects DeleteMe env =
      (env.cleanup_hooks_.filter (fun h => h.fn_ = DeleteMe ∧ h.arg_ ≠ 0)).map
        (fun h => h.arg_) ∧
    (ForEachBaseObject DeleteMe env iterator init).2 =
      (visited_objects DeleteMe env).foldl (fun acc obj => iterator obj acc) init := by
  have hfold : ∀ (l : List CleanupHookCallback) (τ : Type) (f : Nat → τ → τ) (acc : τ),
      l.foldl (fun acc hook =>
          let obj := hook.GetBaseObject DeleteMe
          if obj ≠ 0 then f obj acc else acc) acc =
        ((l.filter (fun h => h.fn_ = DeleteMe ∧ h.arg_ ≠ 0)).map (fun h => h.arg_)).foldl
          (fun acc obj => f obj acc) acc := by
    intro l τ f
    induction l with
    | nil => intro acc; rfl
    | cons a t ih =>
      intro acc
      rw [List.foldl_cons, ih]
      by_cases hd : a.fn_ = DeleteMe
      · by_cases h0 : a.arg_ = 0
        · simp [CleanupHookCallback.GetBaseObject, hd, h0]
        · simp [CleanupHookCallback.GetBaseObject, hd, h0]
      · simp [CleanupHookCallback.GetBaseObject, hd]
  have hvis : visited_objects DeleteMe env =
      (env.cleanup_hooks_.filter (fun h => h.fn_ = DeleteMe ∧ h.arg_ ≠ 0)).map
        (fun h => h.arg_) := by
    have happ : ∀ (l acc : List Nat), l.foldl (fun acc obj => acc ++ [obj]) acc = acc ++ l := by
      intro l
      induction l with
      | nil => intro acc; simp
      | cons x xs ih => intro acc; rw [List.foldl_cons, ih]; simp
    have h1 := hfold env.cleanup_hooks_ (List Nat) (fun obj acc => acc ++ [obj]) []
    rw [happ, List.nil_append] at h1
    exact h1
  refine ⟨rfl, hvis, ?_⟩
  rw [hvis]
  exact hfold env.cleanup_hooks_ σ iterator init

theorem DecreaseWaitingRequestCounter_of_pos (e : LoopCounters) (h : 1 ≤ e.request_waiting_) :
    DecreaseWaitingRequestCounter e =
      .done { e with request_waiting_ := e.request_waiting_ - 1 } := by
  unfold DecreaseWaitingRequestCounter
  dsimp only
  rw [if_pos (by omega)]

/-- C17 (work-item accounting).  With a non-negative waiting-request counter, a
`ScheduleWork` whose submission succeeds (`uv_queue_work` returns `0`) raises the
counter by exactly one; the completion callback, for every status (normal or
cancelled), lowers it by exactly one and only then calls
`AfterThreadPoolWork(status)`, which therefore runs in a state whose counter is
the value from before `ScheduleWork`; and if `AfterThreadPoolWork` leaves the
counter alone, that is also the counter after completion. -/
theorem work_item_accounting (env : LoopCounters) (status : Int)
    (AfterThreadPoolWork : Int → LoopCounters → Checked LoopCounters)
    (h0 : 0 ≤ env.request_waiting_) :
    ThreadPoolWork.ScheduleWork env 0 = .done (IncreaseWaitingRequestCounter env) ∧
    (IncreaseWaitingRequestCounter env).request_waiting_ = env.request_waiting_ + 1 ∧
    (∀ e : LoopCounters, 1 ≤ e.request_waiting_ →
      ThreadPoolWork.after_work_cb AfterThreadPoolWork e status =
        AfterThreadPoolWork status { e with request_waiting_ := e.request_waiting_ - 1 }) ∧
    ThreadPoolWork.after_work_cb AfterThreadPoolWork (IncreaseWaitingRequestCounter env) status =
      AfterThreadPoolWork status env ∧
    ((∀ e e', AfterThreadPoolWork status e = .done e' →
        e'.request_waiting_ = e.request_waiting_) →
      ∀ env2, ThreadPoolWork.after_work_cb AfterThreadPoolWork
          (IncreaseWaitingRequestCounter env) status = .done env2 →
        env2.request_waiting_ = env.request_waiting_) := by
  have hgen : ∀ e : LoopCounters, 1 ≤ e.request_waiting_ →
      ThreadPoolWork.after_work_cb AfterThreadPoolWork e status =
        AfterThreadPoolWork status { e with request_waiting_ := e.request_waiting_ - 1 } := by
    intro e he
    unfold ThreadPoolWork.after_work_cb
    rw [DecreaseWaitingRequestCounter_of_pos e he]
  have hback : ({ IncreaseWaitingRequestCounter env with
      request_waiting_ := (IncreaseWaitingRequestCounter env).request_waiting_ - 1 } :
        LoopCounters) = env := by
    cases env with
    | mk r c =>
      simp only [IncreaseWaitingRequestCounter, LoopCounters.mk.injEq, and_true]
      omega
  have hcb : ThreadPoolWork.after_work_cb AfterThreadPoolWork
      (IncreaseWaitingRequestCounter env) status = AfterThreadPoolWork status env := by
    rw [hgen _ (by show 1 ≤ env.request_waiting_ + 1; omega), hback]
  refine ⟨rfl, rfl, hgen, hcb, ?_⟩
  intro hkeep env2 h2
  rw [hcb] at h2
  exact hkeep env env2 h2

theorem work_item_accounting_witness :
    (0 : Int) ≤ ({ request_waiting_ := 2, handle_cleanup_waiting_ := 0 } :
      LoopCounters).request_waiting_ ∧
    ThreadPoolWork.ScheduleWork { request_waiting_ := 2, handle_cleanup_waiting_ := 0 } 0 =
      .done { request_waiting_ := 3, handle_cleanup_waiting_ := 0 } ∧
    ThreadPoolWork.after_work_cb (fun _ e => .done e)
        { request_waiting_ := 3, handle_cleanup_waiting_ := 0 } (-125) =
      .done { request_waiting_ := 2, handle_cleanup_waiting_ := 0 } :=
  ⟨by decide, by decide,
    (work_item_accounting { request_waiting_ := 2, handle_cleanup_waiting_ := 0 } (-125)
      (fun _ e => .done e) (by decide)).2.2.2.1⟩

/-- C18 (closing a handle).  `CloseHandle(handle, on_close)` raises the
outstanding-close counter by exactly one and overwrites the handle's data slot
with the close record; when the close completes, the counter is lowered by
exactly one and the data slot is set back to its value from before
`CloseHandle`, both before `on_close` is called, and `on_close` is called on the
same handle.  A completion that directly follows `CloseHandle` thus calls
`on_close` with the counter and the data slot at their values from before
`CloseHandle`. -/
theorem close_handle_effect (env : LoopCounters) (handle : UvHandle) (on_close : Nat)
    (invoke : Nat → UvHandle → LoopCounters → LoopCounters × UvHandle) :
    (CloseHandle env handle on_close).1.handle_cleanup_waiting_ =
      env.handle_cleanup_waiting_ + 1 ∧
    (CloseHandle env handle on_close).1.request_waiting_ = env.request_waiting_ ∧
    (CloseHandle env handle on_close).2.data = .close_data on_close handle.data ∧
    (CloseHandle env handle on_close).2.data ≠ handle.data ∧
    (CloseHandle env handle on_close).2.id = handle.id ∧
    (∀ e : LoopCounters,
      CloseHandle_close_cb invoke e (CloseHandle env handle on_close).2 =
        some (invoke on_close handle
          { e with handle_cleanup_waiting_ := e.handle_cleanup_waiting_ - 1 })) ∧
    CloseHandle_close_cb invoke (CloseHandle env handle on_close).1
        (CloseHandle env handle on_close).2 =
      some (invoke on_close handle env) := by
  have hback : ({ (CloseHandle env handle on_close).1 with
      handle_cleanup_waiting_ :=
        (CloseHandle env handle on_close).1.handle_cleanup_waiting_ - 1 } : LoopCounters) =
        env := by
    cases env with
    | mk r c =>
      simp only [CloseHandle, LoopCounters.mk.injEq, true_and]
      omega
  have hgen : ∀ e : LoopCounters,
      CloseHandle_close_cb invoke e (CloseHandle env handle on_close).2 =
        some (invoke on_close handle
          { e with handle_cleanup_waiting_ := e.handle_cleanup_waiting_ - 1 }) := by
    intro e
    rfl
  refine ⟨rfl, rfl, rfl, ?_, rfl, hgen, ?_⟩
  · intro h
    have hs := congrArg sizeOf h
    simp only [CloseHandle, HandleData.close_data.sizeOf_spec] at hs
    omega
  · rw [hgen, hback]

/-- C19, the claim as stated, fails: when the source `b1` is empty, destroying
both buffers after `b2 = move(b1)` does not call a deallocation routine exactly
once: `Environment::Free` is called twice and `allocator()->Free` not at all. -/
theorem move_of_empty_buffer_frees_nothing_later :
    (AllocatedBuffer.dtor
        (AllocatedBuffer.move_assign { env_ := 1, buffer_ := uv_buf_init 100 8 }
          (AllocatedBuffer.empty 1) { Free_calls := [], allocator_Free_calls := [] }).1
        (AllocatedBuffer.dtor
          (AllocatedBuffer.move_assign { env_ := 1, buffer_ := uv_buf_init 100 8 }
            (AllocatedBuffer.empty 1) { Free_calls := [], allocator_Free_calls := [] }).2.1
          { Free_calls := [], allocator_Free_calls := [] })) =
      { Free_calls := [(1, 0, 0), (1, 0, 0)], allocator_Free_calls := [] } ∧
    ¬ ((AllocatedBuffer.dtor
        (AllocatedBuffer.move_assign { env_ := 1, buffer_ := uv_buf_init 100 8 }
          (AllocatedBuffer.empty 1) { Free_calls := [], allocator_Free_calls := [] }).1
        (AllocatedBuffer.dtor
          (AllocatedBuffer.move_assign { env_ := 1, buffer_ := uv_buf_init 100 8 }
            (AllocatedBuffer.empty 1) { Free_calls := [], allocator_Free_calls := [] }).2.1
          { Free_calls := [], allocator_Free_calls := [] })).allocator_Free_calls.length
        = 1) := by
  decide

/-- C19, amended.  After `b2 = move(b1)` of two distinct buffers, `b1` is empty
(null `data()`, `size()` zero), `b2` holds the environment, region and length
`b1` held, and the region `b2` held before has been passed to
`Environment::Free` once, reaching `allocator()->Free` once if it was not null.
Destroying both afterwards, in either order, reaches `allocator()->Free` exactly
once, on the moved region, if that region is not null, and not at all if `b1`
was empty. -/
theorem move_assign_single_ownership (b1 b2 : AllocatedBuffer) (log : FreeLog) :
    (AllocatedBuffer.move_assign b2 b1 log).2.1.data = 0 ∧
    (AllocatedBuffer.move_assign b2 b1 log).2.1.size = 0 ∧
    (AllocatedBuffer.move_assign b2 b1 log).1 = b1 ∧
    (AllocatedBuffer.move_assign b2 b1 log).2.2.Free_calls =
      log.Free_calls ++ [(b2.env_, b2.data, b2.size)] ∧
    (AllocatedBuffer.move_assign b2 b1 log).2.2.allocator_Free_calls =
      log.allocator_Free_calls ++
        (if b2.data ≠ 0 then [(b2.env_, b2.data, b2.size)] else []) ∧
    (∀ log2 : FreeLog,
      (AllocatedBuffer.dtor (AllocatedBuffer.move_assign b2 b1 log).1
        (AllocatedBuffer.dtor (AllocatedBuffer.move_assign b2 b1 log).2.1
          log2)).allocator_Free_calls =
        log2.allocator_Free_calls ++
          (if b1.data ≠ 0 then [(b1.env_, b1.data, b1.size)] else []) ∧
      (AllocatedBuffer.dtor (AllocatedBuffer.move_assign b2 b1 log).2.1
        (AllocatedBuffer.dtor (AllocatedBuffer.move_assign b2 b1 log).1
          log2)).allocator_Free_calls =
        log2.allocator_Free_calls ++
          (if b1.data ≠ 0 then [(b1.env_, b1.data, b1.size)] else [])) := by
  refine ⟨rfl, rfl, rfl, rfl, ?_, ?_⟩
  · show (Environment.Free b2.env_ log b2.buffer_.base b2.buffer_.len).allocator_Free_calls = _
    unfold Environment.Free AllocatedBuffer.data AllocatedBuffer.size
    dsimp only
    split_ifs <;> simp
  · intro log2
    constructor
    · show (Environment.Free b1.env_ (Environment.Free b1.env_ log2 0 0)
        b1.buffer_.base b1.buffer_.len).allocator_Free_calls = _
      unfold Environment.Free AllocatedBuffer.data AllocatedBuffer.size
      by_cases h : b1.buffer_.base = 0 <;> simp [h]
    · show (Environment.Free b1.env_ (Environment.Free b1.env_ log2
        b1.buffer_.base b1.buffer_.len) 0 0).allocator_Free_calls = _
      unfold Environment.Free AllocatedBuffer.data AllocatedBuffer.size
      by_cases h : b1.buffer_.base = 0 <;> simp [h]

/-- C20 (release).  `release()` returns the `(base, length)` pair the buffer held
and leaves the buffer empty; a second `release()` returns the empty pair; and
destroying the buffer after `release()` reaches `allocator()->Free` with no
call. -/
theorem release_hands_over_region (b : AllocatedBuffer) (log : FreeLog) :
    b.release.1 = b.buffer_ ∧
    b.release.2.data = 0 ∧ b.release.2.size = 0 ∧
    b.release.2.env_ = b.env_ ∧
    b.release.2.release.1 = uv_buf_init 0 0 ∧
    b.release.2.release.2 = b.release.2 ∧
    (AllocatedBuffer.dtor b.release.2 log).allocator_Free_calls = log.allocator_Free_calls :=
  ⟨rfl, rfl, rfl, rfl, rfl, rfl, rfl⟩

/-- C21, the claim as stated, fails: `Resize(2^32 + 5)` with a reallocation that
succeeds returns, and the buffer ends with `size() == 5`, not `2^32 + 5`. -/
theorem resize_narrows_length :
    AllocatedBuffer.Resize (fun _ _ _ => 4096) (AllocatedBuffer.empty 1) 4294967301 =
      some { env_ := 1, buffer_ := { base := 4096, len := 5 } } ∧
    (AllocatedBuffer.Resize (fun _ _ _ => 4096) (AllocatedBuffer.empty 1)
      4294967301).map AllocatedBuffer.size ≠ some 4294967301 := by
  decide

/-- C21, amended.  For every buffer and every `len`, `Resize(len)` fails its
`CHECK` exactly when the reallocation returns null, and otherwise leaves the
buffer with the non-null base the reallocation returned and with `size()` equal
to `len` reduced modulo `2^32`, which is `len` for every `len` below `2^32`.  The
size requested from the reallocation is `len` itself, or one byte when `len` is
`0`; so `Resize` of an empty buffer with `0 < len < 2^32` gives a buffer of that
length, and `Resize(0)` gives a non-null base with `size() == 0`. -/
theorem resize_effect (Reallocate : Nat → Nat → Nat → Nat) (b : AllocatedBuffer) (len : Nat) :
    (b.Resize Reallocate len = none ↔
      Reallocate b.data b.size (if 0 < len then len else 1) = 0) ∧
    (∀ b', b.Resize Reallocate len = some b' →
      b'.size = len % 4294967296 ∧ (len < 4294967296 → b'.size = len) ∧
      b'.data ≠ 0 ∧
      b'.data = Reallocate b.data b.size (if 0 < len then len else 1) ∧
      b'.env_ = b.env_) ∧
    (∀ env, 0 < len → len < 4294967296 → Reallocate 0 0 len ≠ 0 →
      ∃ b', (AllocatedBuffer.empty env).Resize Reallocate len = some b' ∧
        b'.size = len ∧ b'.data = Reallocate 0 0 len ∧ b'.data ≠ 0 ∧ b'.env_ = env) ∧
    (Reallocate b.data b.size 1 ≠ 0 →
      ∃ b', b.Resize Reallocate 0 = some b' ∧
        b'.size = 0 ∧ b'.data = Reallocate b.data b.size 1 ∧ b'.data ≠ 0) := by
  have hsome : ∀ (c : AllocatedBuffer) (n : Nat),
      Reallocate c.buffer_.base c.buffer_.len (if 0 < n then n else 1) ≠ 0 →
      c.Resize Reallocate n =
        some { c with buffer_ :=
          (uv_buf_init (Reallocate c.buffer_.base c.buffer_.len (if 0 < n then n else 1))
            n) } := by
    intro c n hne
    unfold AllocatedBuffer.Resize
    dsimp only
    rw [if_pos hne]
  have hnone : ∀ (c : AllocatedBuffer) (n : Nat),
      Reallocate c.buffer_.base c.buffer_.len (if 0 < n then n else 1) = 0 →
      c.Resize Reallocate n = none := by
    intro c n h0
    unfold AllocatedBuffer.Resize
    dsimp only
    rw [if_neg (fun hn => hn h0)]
  refine ⟨?_, ?_, ?_, ?_⟩
  · by_cases h : Reallocate b.buffer_.base b.buffer_.len (if 0 < len then len else 1) = 0
    · exact ⟨fun _ => h, fun _ => hnone b len h⟩
    · rw [hsome b len h]
      exact ⟨fun hs => Option.noConfusion hs, fun h0 => absurd h0 h⟩
  · intro b' hb
    by_cases h : Reallocate b.buffer_.base b.buffer_.len (if 0 < len then len else 1) = 0
    · rw [hnone b len h] at hb
      cases hb
    · rw [hsome b len h] at hb
      cases hb
      exact ⟨rfl, fun hlt => Nat.mod_eq_of_lt hlt, h, rfl, rfl⟩
  · intro env hlen hlt hne
    have hne2 : Reallocate (AllocatedBuffer.empty env).buffer_.base
        (AllocatedBuffer.empty env).buffer_.len (if 0 < len then len else 1) ≠ 0 := by
      rw [if_pos hlen]
      exact hne
    refine ⟨_, hsome (AllocatedBuffer.empty env) len hne2, Nat.mod_eq_of_lt hlt, ?_, ?_, rfl⟩
    · show Reallocate 0 (0 % UINT32_MOD) (if 0 < len then len else 1) = Reallocate 0 0 len
      rw [if_pos hlen]
      rfl
    · show Reallocate 0 (0 % UINT32_MOD) (if 0 < len then len else 1) ≠ 0
      rw [if_pos hlen]
      exact hne
  · intro hne
    have hne2 : Reallocate b.buffer_.base b.buffer_.len (if 0 < 0 then 0 else 1) ≠ 0 := by
      rw [if_neg (Nat.lt_irrefl 0)]
      exact hne
    refine ⟨_, hsome b 0 hne2, rfl, ?_, ?_⟩
    · show Reallocate b.buffer_.base b.buffer_.len (if 0 < 0 then 0 else 1) = _
      rw [if_neg (Nat.lt_irrefl 0)]
      rfl
    · show Reallocate b.buffer_.base b.buffer_.len (if 0 < 0 then 0 else 1) ≠ 0
      exact hne2

theorem resize_effect_witness :
    AllocatedBuffer.Resize (fun _ _ size => 4096 + size) (AllocatedBuffer.empty 1) 16 =
      some { env_ := 1, buffer_ := { base := 4112, len := 16 } } ∧
    AllocatedBuffer.Resize (fun _ _ _ => 0) { env_ := 1, buffer_ := { base := 100, len := 8 } }
      32 = none ∧
    (∃ b', AllocatedBuffer.Resize (fun _ _ size => 4096 + size)
        { env_ := 1, buffer_ := { base := 100, len := 8 } } 0 = some b' ∧
      b'.size = 0 ∧
      b'.data = (fun _ _ size => 4096 + size)
        (AllocatedBuffer.data { env_ := 1, buffer_ := { base := 100, len := 8 } })
        (AllocatedBuffer.size { env_ := 1, buffer_ := { base := 100, len := 8 } }) 1 ∧
      b'.data ≠ 0) :=
  ⟨by decide,
    (resize_effect (fun _ _ _ => 0) { env_ := 1, buffer_ := { base := 100, len := 8 } }
      32).1.mpr rfl,
    (resize_effect (fun _ _ size => 4096 + size)
      { env_ := 1, buffer_ := { base := 100, len := 8 } } 0).2.2.2 (by decide)⟩

/-- C22, the claim as stated, fails: `AllocateManaged(2^32 + 16, false)` with an
allocator that returns a non-null region returns a buffer with `size() == 16`,
not `2^32 + 16`. -/
theorem allocate_managed_narrows_length :
    Environment.AllocateManaged 1 (fun _ => 4096) 4294967312 false =
      some { env_ := 1, buffer_ := { base := 4096, len := 16 } } ∧
    (Environment.AllocateManaged 1 (fun _ => 4096) 4294967312 false).map
      AllocatedBuffer.size ≠ some 4294967312 := by
  decide

/-- C22, amended.  When the allocator returns a non-null region,
`AllocateManaged(size, checked)` returns a buffer that owns that region, with
`size()` equal to `size` reduced modulo `2^32`, which is `size` for every `size`
below `2^32`, whatever `checked` is.  When the allocator returns null, the
checked variant fails its `CHECK` and the unchecked variant returns the empty
buffer (null `data()`, `size()` zero); no returned buffer has a null base with
a non-zero length. -/
theorem allocate_managed_effect (env : Nat) (AllocateUninitialized : Nat → Nat)
    (size : Nat) (checked : Bool) :
    (AllocateUninitialized size ≠ 0 →
      ∃ b, Environment.AllocateManaged env AllocateUninitialized size checked = some b ∧
        b.env_ = env ∧ b.data = AllocateUninitialized size ∧
        b.size = size % 4294967296 ∧ (size < 4294967296 → b.size = size)) ∧
    (AllocateUninitialized size = 0 →
      Environment.AllocateManaged env AllocateUninitialized size true = none ∧
      Environment.AllocateManaged env AllocateUninitialized size false =
        some (AllocatedBuffer.empty env)) ∧
    (∀ b, Environment.AllocateManaged env AllocateUninitialized size checked = some b →
      b.env_ = env ∧ (b.data = 0 → b.size = 0)) := by
  have hnn : AllocateUninitialized size ≠ 0 →
      Environment.AllocateManaged env AllocateUninitialized size checked =
        some { env_ := env, buffer_ := uv_buf_init (AllocateUninitialized size) size } := by
    intro hne
    unfold Environment.AllocateManaged Environment.Allocate Environment.AllocateUnchecked
    cases checked
    · simp [hne]
    · simp [hne]
  have hnull : AllocateUninitialized size = 0 →
      Environment.AllocateManaged env AllocateUninitialized size true = none ∧
      Environment.AllocateManaged env AllocateUninitialized size false =
        some (AllocatedBuffer.empty env) := by
    intro h0
    unfold Environment.AllocateManaged Environment.Allocate Environment.AllocateUnchecked
      AllocatedBuffer.empty
    simp [h0]
  refine ⟨?_, hnull, ?_⟩
  · intro hne
    exact ⟨_, hnn hne, rfl, rfl, rfl, fun hlt => Nat.mod_eq_of_lt hlt⟩
  · intro b hb
    by_cases h0 : AllocateUninitialized size = 0
    · cases checked
      · rw [(hnull h0).2] at hb
        cases hb
        exact ⟨rfl, fun _ => rfl⟩
      · rw [(hnull h0).1] at hb
        cases hb
    · rw [hnn h0] at hb
      cases hb
      exact ⟨rfl, fun hd => absurd hd h0⟩

theorem allocate_managed_effect_witness :
    Environment.AllocateManaged 1 (fun size => 4096 + size) 16 true =
      some { env_ := 1, buffer_ := { base := 4112, len := 16 } } ∧
    Environment.AllocateManaged 1 (fun _ => 0) 16 true = none ∧
    Environment.AllocateManaged 1 (fun _ => 0) 16 false = some (AllocatedBuffer.empty 1) ∧
    (∃ b, Environment.AllocateManaged 1 (fun size => 4096 + size) 16 false = some b ∧
      b.env_ = 1 ∧ b.data = (fun size => 4096 + size) 16 ∧
      b.size = 16 % 4294967296 ∧ (16 < 4294967296 → b.size = 16)) :=
  ⟨by decide,
    ((allocate_managed_effect 1 (fun _ => 0) 16 true).2.1 rfl).1,
    ((allocate_managed_effect 1 (fun _ => 0) 16 false).2.1 rfl).2,
    (allocate_managed_effect 1 (fun size => 4096 + size) 16 false).1 (by decide)⟩

theorem BufferStore.move_assign_distinct (st : BufferStore) (log : FreeLog)
    (self other : Nat) (hne : self ≠ other) :
    ((st.move_assign log self other).1 self, (st.move_assign log self other).1 other,
      (st.move_assign log self other).2) =
      AllocatedBuffer.move_assign (st self) (st other) log := by
  have hne2 : ¬ other = self := fun h => hne h.symm
  simp [BufferStore.move_assign, BufferStore.clear, BufferStore.release, BufferStore.set,
    AllocatedBuffer.move_assign, AllocatedBuffer.clear, AllocatedBuffer.release, hne2]

/-- C23 (self-move-assignment).  For every buffer `b`, `b = move(b)` calls
`Environment::Free` once, which reaches `allocator()->Free` at most once (once
when `b` held a non-null region, on that region); `b` ends empty, in the same
environment, no other object is touched, and destroying `b` afterwards reaches
`allocator()->Free` with no further call. -/
theorem self_move_assign_is_safe (st : BufferStore) (log : FreeLog) (a : Nat) :
    ((st.move_assign log a a).1 a).data = 0 ∧
    ((st.move_assign log a a).1 a).size = 0 ∧
    ((st.move_assign log a a).1 a).env_ = (st a).env_ ∧
    (∀ x, x ≠ a → (st.move_assign log a a).1 x = st x) ∧
    (st.move_assign log a a).2.Free_calls =
      log.Free_calls ++ [((st a).env_, (st a).data, (st a).size)] ∧
    (st.move_assign log a a).2.allocator_Free_calls =
      log.allocator_Free_calls ++
        (if (st a).data ≠ 0 then [((st a).env_, (st a).data, (st a).size)] else []) ∧
    (st.move_assign log a a).2.allocator_Free_calls.length ≤
      log.allocator_Free_calls.length + 1 ∧
    (BufferStore.dtor (st.move_assign log a a).1 (st.move_assign log a a).2
        a).allocator_Free_calls =
      (st.move_assign log a a).2.allocator_Free_calls := by
  have hfree : (st.move_assign log a a).2.allocator_Free_calls =
      log.allocator_Free_calls ++
        (if (st a).data ≠ 0 then [((st a).env_, (st a).data, (st a).size)] else []) := by
    simp only [BufferStore.move_assign, BufferStore.clear, BufferStore.release,
      BufferStore.set, Environment.Free, AllocatedBuffer.data, AllocatedBuffer.size, if_true]
    by_cases h : (st a).buffer_.base = 0 <;> simp [h]
  refine ⟨?_, ?_, ?_, ?_, ?_, hfree, ?_, ?_⟩
  · simp [BufferStore.move_assign, BufferStore.clear, BufferStore.release, BufferStore.set,
      AllocatedBuffer.data, uv_buf_init]
  · simp [BufferStore.move_assign, BufferStore.clear, BufferStore.release, BufferStore.set,
      AllocatedBuffer.size, uv_buf_init]
  · simp [BufferStore.move_assign, BufferStore.clear, BufferStore.release, BufferStore.set]
  · intro x hx
    simp [BufferStore.move_assign, BufferStore.clear, BufferStore.release, BufferStore.set, hx]
  · simp [BufferStore.move_assign, BufferStore.clear, BufferStore.release, BufferStore.set,
      Environment.Free, AllocatedBuffer.data, AllocatedBuffer.size]
  · rw [hfree]
    by_cases h : (st a).data = 0 <;> simp [h]
  · simp [BufferStore.dtor, BufferStore.move_assign, BufferStore.clear, BufferStore.release,
      BufferStore.set, Environment.Free, uv_buf_init]

theorem DecreaseWaitingRequestCounter_fatal_iff (e : LoopCounters) :
    (∃ e', DecreaseWaitingRequestCounter e = .fatal e') ↔ e.request_waiting_ ≤ 0 := by
  unfold DecreaseWaitingRequestCounter
  dsimp only
  by_cases h : 0 ≤ e.request_waiting_ - 1
  · rw [if_pos h]
    constructor
    · rintro ⟨e', he⟩; cases he
    · intro hle; omega
  · rw [if_neg h]
    constructor
    · intro _; omega
    · intro _; exact ⟨_, rfl⟩

theorem LoopCounters.run_balance (ops : List WaitingOp) :
    ∀ e e' : LoopCounters, 0 ≤ e.request_waiting_ → e.run ops = some e' →
      0 ≤ e'.request_waiting_ ∧
      e'.request_waiting_ =
        e.request_waiting_ + (ops.count .increase : Int) - (ops.count .decrease : Int) := by
  induction ops with
  | nil =>
    intro e e' h0 hr
    simp only [LoopCounters.run, Option.some.injEq] at hr
    subst hr
    simp [h0]
  | cons op ops ih =>
    intro e e' h0 hr
    cases op with
    | increase =>
      simp only [LoopCounters.run] at hr
      obtain ⟨h1, h2⟩ := ih (IncreaseWaitingRequestCounter e) e'
        (by show 0 ≤ e.request_waiting_ + 1; omega) hr
      refine ⟨h1, ?_⟩
      rw [h2]
      show e.request_waiting_ + 1 + _ - _ = _
      simp only [List.count_cons_self, List.count_cons_of_ne (show WaitingOp.decrease ≠
        WaitingOp.increase by decide)]
      push_cast
      omega
    | decrease =>
      by_cases hp : 1 ≤ e.request_waiting_
      · rw [LoopCounters.run, DecreaseWaitingRequestCounter_of_pos e hp] at hr
        obtain ⟨h1, h2⟩ := ih _ e' (by show 0 ≤ e.request_waiting_ - 1; omega) hr
        refine ⟨h1, ?_⟩
        rw [h2]
        show e.request_waiting_ - 1 + _ - _ = _
        simp only [List.count_cons_self, List.count_cons_of_ne (show WaitingOp.increase ≠
          WaitingOp.decrease by decide)]
        push_cast
        omega
      · obtain ⟨ef, hf⟩ := (DecreaseWaitingRequestCounter_fatal_iff e).mpr (by omega)
        rw [LoopCounters.run, hf] at hr
        cases hr

/-- C24 (unbalanced decrements are fatal).  `DecreaseWaitingRequestCounter` fails
its `CHECK` exactly when the counter is at most `0` before the call; so in every
state reached from counter `0` by increases and decreases that all return, the
counter is non-negative and equals the number of increases minus the number of
decreases. -/
theorem unbalanced_decrease_is_fatal (e : LoopCounters) (ops : List WaitingOp)
    (e' : LoopCounters) (hstart : e.request_waiting_ = 0) (hr : e.run ops = some e') :
    (∀ g : LoopCounters,
      (∃ g', DecreaseWaitingRequestCounter g = .fatal g') ↔ g.request_waiting_ ≤ 0) ∧
    0 ≤ e'.request_waiting_ ∧
    e'.request_waiting_ = (ops.count .increase : Int) - (ops.count .decrease : Int) := by
  obtain ⟨h1, h2⟩ := LoopCounters.run_balance ops e e' (by omega) hr
  refine ⟨DecreaseWaitingRequestCounter_fatal_iff, h1, ?_⟩
  rw [h2, hstart]
  omega

theorem unbalanced_decrease_is_fatal_witness :
    LoopCounters.run { request_waiting_ := 0, handle_cleanup_waiting_ := 0 }
        [.increase, .increase, .decrease] =
      some { request_waiting_ := 1, handle_cleanup_waiting_ := 0 } ∧
    LoopCounters.run { request_waiting_ := 0, handle_cleanup_waiting_ := 0 }
        [.increase, .decrease, .decrease] = none ∧
    (0 : Int) ≤ ({ request_waiting_ := 1, handle_cleanup_waiting_ := 0 } :
      LoopCounters).request_waiting_ :=
  ⟨by decide, by decide,
    (unbalanced_decrease_is_fatal { request_waiting_ := 0, handle_cleanup_waiting_ := 0 }
      [.increase, .increase, .decrease]
      { request_waiting_ := 1, handle_cleanup_waiting_ := 0 } rfl (by decide)).2.1⟩

/-- C25 (default trigger fallback).  `get_default_trigger_async_id` returns the
stored default trigger id when it is at least `0` and the current
`kExecutionAsyncId` when it is negative, and it leaves the state as it was.  On
a freshly constructed host, and in any state reached from one in which every
scope that was opened has been closed, it returns `kExecutionAsyncId`. -/
theorem default_trigger_fallback (s : AsyncHooks) :
    (0 ≤ s.kDefaultTriggerAsyncId →
      (get_default_trigger_async_id s).1 = s.kDefaultTriggerAsyncId) ∧
    (s.kDefaultTriggerAsyncId < 0 →
      (get_default_trigger_async_id s).1 = s.kExecutionAsyncId) ∧
    (get_default_trigger_async_id s).2 = s ∧
    (get_default_trigger_async_id AsyncHooks.new).1 = AsyncHooks.new.kExecutionAsyncId ∧
    (∀ (ops : List Op) (h' : Host), Host.new.run ops = some h' → h'.scopes = [] →
      (get_default_trigger_async_id h'.hooks).1 = h'.hooks.kExecutionAsyncId) := by
  have hneg : ∀ t : AsyncHooks, t.kDefaultTriggerAsyncId < 0 →
      (get_default_trigger_async_id t).1 = t.kExecutionAsyncId := by
    intro t ht
    unfold get_default_trigger_async_id
    dsimp only
    rw [if_pos ht]
  refine ⟨?_, hneg s, ?_, by decide, ?_⟩
  · intro h
    unfold get_default_trigger_async_id
    dsimp only
    rw [if_neg (by omega)]
  · unfold get_default_trigger_async_id
    dsimp only
    split_ifs <;> rfl
  · intro ops h' hr hsc
    apply hneg
    have hu := Host.run_unwind ops Host.new h' hr
    unfold Host.unwind at hu
    rw [hsc] at hu
    have hd : h'.hooks.kDefaultTriggerAsyncId = -1 := hu
    rw [hd]
    decide

theorem default_trigger_fallback_witness :
    (get_default_trigger_async_id AsyncHooks.two_deep).1 = 7 ∧
    (get_default_trigger_async_id
      { AsyncHooks.two_deep with kDefaultTriggerAsyncId := 42 }).1 = 42 :=
  ⟨((default_trigger_fallback AsyncHooks.two_deep).2.1 (by decide)).trans rfl,
    ((default_trigger_fallback
      { AsyncHooks.two_deep with kDefaultTriggerAsyncId := 42 }).1 (by decide)).trans rfl⟩

theorem push_async_ids_unchecked (s : AsyncHooks) (a t : Int) (hk : s.kCheck = 0)
    (w : Fatal) (s' : AsyncHooks) : push_async_ids s a t ≠ .fatal w s' := by
  intro hf
  have h1 : ¬ (0 < s.kCheck ∧ ¬ (-1 ≤ a)) := fun h => by omega
  have h2 : ¬ (0 < s.kCheck ∧ ¬ (-1 ≤ t)) := fun h => by omega
  unfold push_async_ids at hf
  rw [if_neg h1, if_neg h2] at hf
  dsimp only at hf
  split_ifs at hf

theorem pop_async_id_unchecked (s : AsyncHooks) (b : Bool) (x : Int) (hk : s.kCheck = 0)
    (w : Fatal) (s' : AsyncHooks) : pop_async_id s b x ≠ .fatal w s' := by
  intro hf
  have h1 : ¬ (0 < s.kCheck ∧ s.kExecutionAsyncId ≠ x) := fun h => by omega
  unfold pop_async_id at hf
  by_cases h0 : s.kStackLength = 0
  · rw [if_pos h0] at hf
    cases hf
  · rw [if_neg h0, if_neg h1] at hf
    dsimp only at hf
    split at hf <;> cases hf

/-- C26, the claim as stated, fails: on a freshly constructed `AsyncHooks` the
field `kCheck` is not `0`, and `push_async_ids` does validate its ids. -/
theorem fresh_async_hooks_kCheck_is_not_zero :
    AsyncHooks.new.kCheck ≠ 0 ∧
    push_async_ids AsyncHooks.new 5 (-2) = .fatal .check AsyncHooks.new := by
  decide

/-- C26, amended.  Corruption checking is on from construction: the constructor
sets `kCheck` to `1`, so on a fresh `AsyncHooks` `push_async_ids` rejects an id
below `-1` and, once the stack is non-empty, `pop_async_id` rejects a wrong id.
The two perform no id validation only while `kCheck` is `0`. -/
theorem fresh_async_hooks_checking_is_on :
    AsyncHooks.new.kCheck = 1 ∧
    (∀ a t : Int, ¬ (-1 ≤ a ∧ -1 ≤ t) →
      push_async_ids AsyncHooks.new a t = .fatal .check AsyncHooks.new) ∧
    (∀ (b : Bool) (x : Int), x ≠ 7 →
      pop_async_id AsyncHooks.two_deep b x =
        .fatal (if b then .abort else .exit1) AsyncHooks.two_deep) ∧
    (∀ s : AsyncHooks, s.kCheck = 0 →
      (∀ a t w s', push_async_ids s a t ≠ .fatal w s') ∧
      (∀ b x w s', pop_async_id s b x ≠ .fatal w s')) := by
  refine ⟨rfl, ?_, ?_, ?_⟩
  · intro a t hn
    unfold push_async_ids
    by_cases ha : -1 ≤ a
    · have ht : ¬ (-1 ≤ t) := fun ht => hn ⟨ha, ht⟩
      rw [if_neg (fun h => h.2 ha), if_pos ⟨by decide, ht⟩]
    · rw [if_pos ⟨by decide, ha⟩]
  · intro b x hx
    have hne : AsyncHooks.two_deep.kExecutionAsyncId ≠ x := fun h => hx h.symm
    unfold pop_async_id
    rw [if_neg (show ¬ AsyncHooks.two_deep.kStackLength = 0 by decide),
      if_pos ⟨show 0 < AsyncHooks.two_deep.kCheck by decide, hne⟩]
    cases b <;> rfl
  · intro s hk
    exact ⟨fun a t w s' => push_async_ids_unchecked s a t hk w s',
      fun b x w s' => pop_async_id_unchecked s b x hk w s'⟩

theorem fresh_async_hooks_checking_is_on_witness :
    push_async_ids AsyncHooks.new (-2) 0 = .fatal .check AsyncHooks.new ∧
    pop_async_id AsyncHooks.two_deep true 999 = .fatal .abort AsyncHooks.two_deep :=
  ⟨fresh_async_hooks_checking_is_on.2.1 (-2) 0 (by decide),
    fresh_async_hooks_checking_is_on.2.2.1 true 999 (by decide)⟩

/-- C27 (no_force_checks wraps).  `no_force_checks` lowers the `uint32_t` field
`kCheck` by one modulo `2^32`.  On a fresh `AsyncHooks` one call makes `kCheck`
`0`: `push_async_ids` then accepts any ids, also below `-1`, and `pop_async_id`
restores the saved pair even when the id does not match.  A second call wraps
`kCheck` to `2^32 - 1`, which is positive, so checking is on again. -/
theorem no_force_checks_wraps :
    (∀ s : AsyncHooks, s.kCheck < 4294967296 →
      ((no_force_checks s).kCheck : Int) = ((s.kCheck : Int) - 1) % 4294967296) ∧
    (no_force_checks AsyncHooks.new).kCheck = 0 ∧
    (∀ a t : Int, ∃ s', push_async_ids (no_force_checks AsyncHooks.new) a t = .done () s' ∧
      s'.kExecutionAsyncId = a ∧ s'.kTriggerAsyncId = t) ∧
    (∀ (b : Bool) (x : Int),
      pop_async_id (no_force_checks AsyncHooks.two_deep) b x =
        .done true
          { no_force_checks AsyncHooks.two_deep with
            kExecutionAsyncId := 5, kTriggerAsyncId := 0, kStackLength := 1 }) ∧
    (no_force_checks (no_force_checks AsyncHooks.new)).kCheck = 4294967295 ∧
    0 < (no_force_checks (no_force_checks AsyncHooks.new)).kCheck ∧
    push_async_ids (no_force_checks (no_force_checks AsyncHooks.new)) (-5) 0 =
      .fatal .check (no_force_checks (no_force_checks AsyncHooks.new)) ∧
    (∀ b : Bool,
      pop_async_id (no_force_checks (no_force_checks AsyncHooks.two_deep)) b 999 =
        .fatal (if b then .abort else .exit1)
          (no_force_checks (no_force_checks AsyncHooks.two_deep))) := by
  refine ⟨?_, by decide, ?_, ?_, by decide, by decide, by decide, ?_⟩
  · intro s hs
    unfold no_force_checks
    dsimp only
    by_cases h0 : s.kCheck = 0
    · rw [if_pos h0, h0]
      decide
    · rw [if_neg h0]
      simp only [UINT32_MOD]
      omega
  · intro a t
    obtain ⟨s1, h1, -, he, ht, -⟩ := push_async_ids_done (no_force_checks AsyncHooks.new) a t
      (by decide) (by decide) (fun hc => absurd hc (by decide))
    exact ⟨s1, h1, he, ht⟩
  · intro b x
    exact pop_async_id_done (no_force_checks AsyncHooks.two_deep) b x 5 0
      (by decide) (by decide) (Or.inl (by decide)) (by decide) (by decide)
  · intro b
    cases b <;> decide

theorem no_force_checks_wraps_witness :
    ((no_force_checks AsyncHooks.two_deep).kCheck : Int) =
      ((AsyncHooks.two_deep.kCheck : Int) - 1) % 4294967296 :=
  no_force_checks_wraps.1 AsyncHooks.two_deep (by decide)

theorem push_async_ids_not_outOfBounds (s : AsyncHooks) (a t : Int) (hv : s.Valid)
    (hd : s.kStackLength < 2147483648) : push_async_ids s a t ≠ .outOfBounds := by
  intro ho
  by_cases h1 : 0 < s.kCheck ∧ ¬ (-1 ≤ a)
  · unfold push_async_ids at ho
    rw [if_pos h1] at ho
    cases ho
  · by_cases h2 : 0 < s.kCheck ∧ ¬ (-1 ≤ t)
    · unfold push_async_ids at ho
      rw [if_neg h1, if_pos h2] at ho
      cases ho
    · obtain ⟨s1, hs1, -⟩ := push_async_ids_done s a t hv hd (fun hc => by
        constructor
        · by_contra ha; exact h1 ⟨hc, ha⟩
        · by_contra ht; exact h2 ⟨hc, ht⟩)
      rw [hs1] at ho
      cases ho

theorem pop_async_id_not_outOfBounds (s : AsyncHooks) (b : Bool) (x : Int) (hv : s.Valid)
    (hd : s.kStackLength ≤ 2147483648) : pop_async_id s b x ≠ .outOfBounds := by
  intro ho
  obtain ⟨-, -, -, -, hfit⟩ := hv
  by_cases h0 : s.kStackLength = 0
  · unfold pop_async_id at ho
    rw [if_pos h0] at ho
    cases ho
  · by_cases h1 : 0 < s.kCheck ∧ s.kExecutionAsyncId ≠ x
    · unfold pop_async_id at ho
      rw [if_neg h0, if_pos h1] at ho
      split_ifs at ho
    · have hl0 : 2 * (s.kStackLength - 1) < s.async_ids_stack_.length := by omega
      have hl1 : 2 * (s.kStackLength - 1) + 1 < s.async_ids_stack_.length := by omega
      have hm : s.kCheck = 0 ∨ s.kExecutionAsyncId = x := by
        by_cases hc : s.kCheck = 0
        · exact Or.inl hc
        · right
          by_contra hne
          exact h1 ⟨Nat.pos_of_ne_zero hc, hne⟩
      rw [pop_async_id_done s b x _ _ (Nat.pos_of_ne_zero h0) hd hm
        (List.getElem?_eq_getElem hl0) (List.getElem?_eq_getElem hl1)] at ho
      cases ho

theorem Host.step_valid (h h1 : Host) (op : Op) (w : List Nat) (hst : h.step op = some h1)
    (hv : h.hooks.Valid) (hd : h.hooks.kStackLength < 2147483648)
    (hw : ∀ i, i < 2 * h.hooks.kStackLength → i ∈ w) :
    h1.hooks.Valid ∧ h1.hooks.kStackLength ≤ h.hooks.kStackLength + 1 ∧
    (∀ i, i < 2 * h1.hooks.kStackLength →
      i ∈ (match op with
        | .push _ _ => w ++ slots_written_by_push h.hooks
        | _ => w)) := by
  cases op with
  | push a t =>
    obtain ⟨s1, hp, rfl⟩ := Host.step_push_eq h h1 a t hst
    obtain ⟨hok, -⟩ := push_async_ids_eq_done _ _ _ _ hp
    obtain ⟨s2, hp2, hl, -, -, -, -, -, -, -, -, hv2⟩ :=
      push_async_ids_done h.hooks a t hv hd hok
    rw [hp] at hp2
    cases hp2
    refine ⟨hv2, by show s1.kStackLength ≤ _; omega, ?_⟩
    intro i hi
    have hi2 : i < 2 * (h.hooks.kStackLength + 1) := by
      have : i < 2 * s1.kStackLength := hi
      rw [hl] at this
      exact this
    have e0 : 2 * h.hooks.kStackLength % UINT32_MOD = 2 * h.hooks.kStackLength := by
      unfold UINT32_MOD; omega
    have e1 : (2 * h.hooks.kStackLength + 1) % UINT32_MOD = 2 * h.hooks.kStackLength + 1 := by
      unfold UINT32_MOD; omega
    show i ∈ w ++ slots_written_by_push h.hooks
    rw [List.mem_append]
    by_cases hlt : i < 2 * h.hooks.kStackLength
    · exact Or.inl (hw i hlt)
    · right
      unfold slots_written_by_push
      rw [e0, e1]
      simp only [List.mem_cons, List.mem_singleton, List.not_mem_nil, or_false]
      omega
  | pop b x =>
    obtain ⟨v, s1, hp, rfl⟩ := Host.step_pop_eq h h1 b x hst
    obtain ⟨hc, hl, hpos, hev, hfit⟩ := hv
    have eo : (h.hooks.kStackLength - 1) % UINT32_MOD = h.hooks.kStackLength - 1 := by
      unfold UINT32_MOD at hl ⊢; omega
    rcases pop_async_id_eq_done _ _ _ _ _ hp with ⟨-, -, rfl⟩ | ⟨-, -, e, t, -, -, -, rfl⟩
    · exact ⟨⟨hc, hl, hpos, hev, hfit⟩, Nat.le_succ _, fun i hi => hw i hi⟩
    · refine ⟨⟨hc, ?_, hpos, hev, ?_⟩, ?_, ?_⟩
      · show (h.hooks.kStackLength - 1) % UINT32_MOD < UINT32_MOD
        rw [eo]; omega
      · show 2 * ((h.hooks.kStackLength - 1) % UINT32_MOD) ≤ h.hooks.async_ids_stack_.length
        rw [eo]; omega
      · show (h.hooks.kStackLength - 1) % UINT32_MOD ≤ h.hooks.kStackLength + 1
        rw [eo]; omega
      · intro i hi
        have hi2 : i < 2 * ((h.hooks.kStackLength - 1) % UINT32_MOD) := hi
        rw [eo] at hi2
        exact hw i (by omega)
  | clear =>
    simp only [Host.step, Option.some.injEq] at hst
    subst hst
    obtain ⟨hc, hl, hpos, hev, hfit⟩ := hv
    refine ⟨⟨hc, by show 0 < UINT32_MOD; decide, hpos, hev, Nat.zero_le _⟩, Nat.zero_le _, ?_⟩
    intro i hi
    exact absurd (show i < 2 * 0 from hi) (by omega)
  | new_id =>
    simp only [Host.step, Option.some.injEq] at hst
    subst hst
    exact ⟨hv, Nat.le_succ _, fun i hi => hw i hi⟩
  | scope_enter v =>
    obtain ⟨-, rfl⟩ := Host.step_scope_enter_eq h h1 v hst
    exact ⟨hv, Nat.le_succ _, fun i hi => hw i hi⟩
  | scope_exit =>
    obtain ⟨sc, rest, -, rfl⟩ := Host.step_scope_exit_eq h h1 hst
    exact ⟨hv, Nat.le_succ _, fun i hi => hw i hi⟩

theorem Host.run_written_valid_of_depth (ops : List Op) :
    ∀ (h h' : Host) (w w' : List Nat), h.hooks.Valid →
      (∀ g ∈ h.trace ops, g.hooks.kStackLength < 2147483648) →
      (∀ i, i < 2 * h.hooks.kStackLength → i ∈ w) →
      h.run_written w ops = some (h', w') →
      h'.hooks.Valid ∧ h'.hooks.kStackLength < 2147483648 ∧
      (∀ i, i < 2 * h'.hooks.kStackLength → i ∈ w') := by
  induction ops with
  | nil =>
    intro h h' w w' hv hd hw hr
    simp only [Host.run_written, Option.some.injEq, Prod.mk.injEq] at hr
    obtain ⟨rfl, rfl⟩ := hr
    exact ⟨hv, hd h (List.mem_singleton_self _), hw⟩
  | cons op ops ih =>
    intro h h' w w' hv hd hw hr
    have hd0 : h.hooks.kStackLength < 2147483648 := by
      apply hd
      unfold Host.trace
      exact List.mem_cons_self _ _
    cases hst : h.step op with
    | none =>
      simp only [Host.run_written, hst] at hr
      cases hr
    | some h1 =>
      have hd1 : ∀ g ∈ h1.trace ops, g.hooks.kStackLength < 2147483648 := by
        intro g hg
        apply hd
        unfold Host.trace
        rw [hst]
        exact List.mem_cons_of_mem _ hg
      obtain ⟨hv1, -, hw1⟩ := Host.step_valid h h1 op w hst hv hd0 hw
      cases op with
      | push a t =>
        simp only [Host.run_written, hst] at hr
        exact ih h1 h' _ w' hv1 hd1 hw1 hr
      | pop b x =>
        simp only [Host.run_written, hst] at hr
        exact ih h1 h' _ w' hv1 hd1 hw1 hr
      | clear =>
        simp only [Host.run_written, hst] at hr
        exact ih h1 h' _ w' hv1 hd1 hw1 hr
      | new_id =>
        simp only [Host.run_written, hst] at hr
        exact ih h1 h' _ w' hv1 hd1 hw1 hr
      | scope_enter v =>
        simp only [Host.run_written, hst] at hr
        exact ih h1 h' _ w' hv1 hd1 hw1 hr
      | scope_exit =>
        simp only [Host.run_written, hst] at hr
        exact ih h1 h' _ w' hv1 hd1 hw1 hr

/-- C28 (stack indexing stays in bounds).  A fresh `AsyncHooks` has a buffer of
32 slots and stack length 0.  In every state reached from it by calls that
return, however many, as long as the stack depth stays below `2^31` along the
way (so that the 32-bit index `2 * length` cannot wrap), with the buffer doubled
whenever a push finds `2 * length >= capacity`: `2 * length <= capacity`; a push
writes slots `2 * length` and `2 * length + 1`, both below the capacity at the
time of the write, and no push or pop indexes outside the buffer; and the slots
a pop reads are inside the buffer and were written by an earlier push. -/
theorem stack_indexing_in_bounds (ops : List Op) (h' : Host) (written : List Nat)
    (hdepth : ∀ g ∈ Host.new.trace ops, g.hooks.kStackLength < 2147483648)
    (hr : Host.new.run_written [] ops = some (h', written)) :
    AsyncHooks.new.async_ids_stack_.length = 32 ∧ AsyncHooks.new.kStackLength = 0 ∧
    2 * h'.hooks.kStackLength ≤ h'.hooks.async_ids_stack_.length ∧
    slots_written_by_push h'.hooks =
      [2 * h'.hooks.kStackLength, 2 * h'.hooks.kStackLength + 1] ∧
    (∀ (a t : Int) (s1 : AsyncHooks), push_async_ids h'.hooks a t = .done () s1 →
      ∀ i ∈ slots_written_by_push h'.hooks, i < s1.async_ids_stack_.length) ∧
    (∀ a t : Int, push_async_ids h'.hooks a t ≠ .outOfBounds) ∧
    (∀ (b : Bool) (x : Int), pop_async_id h'.hooks b x ≠ .outOfBounds) ∧
    (h'.hooks.kStackLength ≠ 0 →
      ∀ i ∈ slots_read_by_pop h'.hooks,
        i ∈ written ∧ i < h'.hooks.async_ids_stack_.length) := by
  obtain ⟨hv, hlen, hw⟩ := Host.run_written_valid_of_depth ops Host.new h' [] written
    (by decide) hdepth
    (fun i hi => absurd (show i < 2 * 0 from hi) (by omega)) hr
  have e0 : 2 * h'.hooks.kStackLength % UINT32_MOD = 2 * h'.hooks.kStackLength := by
    unfold UINT32_MOD; omega
  have e1 : (2 * h'.hooks.kStackLength + 1) % UINT32_MOD = 2 * h'.hooks.kStackLength + 1 := by
    unfold UINT32_MOD; omega
  have hslots : slots_written_by_push h'.hooks =
      [2 * h'.hooks.kStackLength, 2 * h'.hooks.kStackLength + 1] := by
    unfold slots_written_by_push
    rw [e0, e1]
  refine ⟨rfl, rfl, hv.2.2.2.2, hslots, ?_,
    fun a t => push_async_ids_not_outOfBounds h'.hooks a t hv hlen,
    fun b x => pop_async_id_not_outOfBounds h'.hooks b x hv (by omega), ?_⟩
  · intro a t s1 hp i hi
    obtain ⟨-, s0, -, hb0, hb1, rfl⟩ := push_async_ids_eq_done _ _ _ _ hp
    rw [e0] at hb0
    rw [e1] at hb1
    rw [hslots] at hi
    simp only [List.mem_cons, List.mem_singleton, List.not_mem_nil, or_false] at hi
    show i < ((s0.async_ids_stack_.set _ _).set _ _).length
    rw [List.length_set, List.length_set]
    omega
  · intro hne i hi
    have eo : (h'.hooks.kStackLength - 1) % UINT32_MOD = h'.hooks.kStackLength - 1 := by
      unfold UINT32_MOD; omega
    have f0 : 2 * (h'.hooks.kStackLength - 1) % UINT32_MOD =
        2 * (h'.hooks.kStackLength - 1) := by
      unfold UINT32_MOD; omega
    have f1 : (2 * (h'.hooks.kStackLength - 1) + 1) % UINT32_MOD =
        2 * (h'.hooks.kStackLength - 1) + 1 := by
      unfold UINT32_MOD; omega
    unfold slots_read_by_pop at hi
    rw [eo, f0, f1] at hi
    simp only [List.mem_cons, List.mem_singleton, List.not_mem_nil, or_false] at hi
    have hfit := hv.2.2.2.2
    exact ⟨hw i (by omega), by omega⟩

theorem stack_indexing_in_bounds_witness :
    (∀ g ∈ Host.new.trace [.push 5 0, .push 7 5, .pop true 7, .clear, .push 9 1],
      g.hooks.kStackLength < 2147483648) ∧
    Host.new.run_written [] [.push 5 0, .push 7 5, .pop true 7, .clear, .push 9 1] =
      some ({ hooks :=
                { AsyncHooks.new with
                  async_ids_stack_ := [0, 0, 5, 0] ++ List.replicate 28 0
                  kStackLength := 1, kExecutionAsyncId := 9, kTriggerAsyncId := 1 }
              scopes := [], returned := [] }, [0, 1, 2, 3, 0, 1]) ∧
    2 * 1 ≤ ([0, 0, 5, 0] ++ List.replicate 28 (0 : Int)).length :=
  ⟨by decide, by decide,
    (stack_indexing_in_bounds [.push 5 0, .push 7 5, .pop true 7, .clear, .push 9 1]
      { hooks :=
          { AsyncHooks.new with
            async_ids_stack_ := [0, 0, 5, 0] ++ List.replicate 28 0
            kStackLength := 1, kExecutionAsyncId := 9, kTriggerAsyncId := 1 }
        scopes := [], returned := [] }
      [0, 1, 2, 3, 0, 1] (by decide) (by decide)).2.2.1⟩

end NodeEnv
